import Mathlib

/-!
# SimpleConfigParser: a shallow embedding of `ConfigParser.h`

`std::string` is a list of characters, `std::map<std::string, std::string>` is a
list of pairs kept in key order without duplicate keys, stream objects are
records of their unread content and their state bits, and member functions that
touch `errorFlag` return the updated object next to their result.  Output to
`std::cerr` is not modelled: `debugOutput` only guards such output.
-/

namespace SimpleConfigParser

/-- A `std::string`, as its sequence of characters. -/
abbrev Str := List Char

/-! ## `std::string` members used by the class -/

/-- The default argument `"\t\n\v\f\r "` of `rtrim`, `ltrim` and `trim`. -/
def whitespace : Str := ['\t', '\n', Char.ofNat 11, Char.ofNat 12, '\r', ' ']

/-- `str.find_first_not_of(chars)`; `none` is `std::string::npos`. -/
def find_first_not_of : Str → Str → Option Nat
  | [], _ => none
  | c :: cs, chars =>
    if chars.contains c then (find_first_not_of cs chars).map (· + 1) else some 0

/-- `str.find_last_not_of(chars)`; `none` is `std::string::npos`. -/
def find_last_not_of : Str → Str → Option Nat
  | [], _ => none
  | c :: cs, chars =>
    match find_last_not_of cs chars with
    | some p => some (p + 1)
    | none => if chars.contains c then none else some 0

/-- `str.find(ch)`; `none` is `std::string::npos`. -/
def find : Str → Char → Option Nat
  | [], _ => none
  | c :: cs, ch => if c = ch then some 0 else (find cs ch).map (· + 1)

/-- `ConfigParser::rtrim` (lines 233-241): erase from `pos + 1` when a last
non-blank character exists and is not the final one. -/
def rtrim (str chars : Str) : Str :=
  match find_last_not_of str chars with
  | some pos => if pos + 1 < str.length then str.take (pos + 1) else str
  | none => str

/-- `ConfigParser::ltrim` (lines 243-254): erase the first `pos` characters, or
clear the string when it has no character outside `chars`. -/
def ltrim (str chars : Str) : Str :=
  match find_first_not_of str chars with
  | some pos => str.drop pos
  | none => []

/-- `ConfigParser::trim` (lines 256-260): `rtrim(ltrim(str))`; both inner calls
use their default character set, the argument `chars` is not passed on. -/
def trim (str : Str) (_chars : Str) : Str :=
  rtrim (ltrim str whitespace) whitespace

/-! ## `std::istringstream` and `std::getline` with a delimiter -/

/-- State of a `std::istringstream`: unread characters and the state bits. -/
structure IStringStream where
  buf : Str
  eofbit : Bool
  failbit : Bool
  deriving DecidableEq, Repr

/-- `std::istringstream issLine(line)`. -/
def IStringStream.ofStr (s : Str) : IStringStream := ⟨s, false, false⟩

/-- `is.good()`. -/
def IStringStream.good (s : IStringStream) : Bool := !s.eofbit && !s.failbit

/-- `is.fail()` (a string stream never sets `badbit`). -/
def IStringStream.fail (s : IStringStream) : Bool := s.failbit

/-- Characters taken from the buffer up to the delimiter: the characters before
it, and the rest of the buffer after it when the delimiter was met (`none` when
the end of the buffer was reached first). -/
def extractUntil (delim : Char) : Str → Str × Option Str
  | [] => ([], none)
  | c :: cs =>
    if c = delim then ([], some cs)
    else ((c :: (extractUntil delim cs).1), (extractUntil delim cs).2)

/-- `std::getline(is, str, delim)`: when the stream is not good the sentry sets
`failbit` and `str` is left as it was; otherwise `str` is erased and filled up
to the delimiter, which is extracted and dropped; reaching the end sets
`eofbit`, and `failbit` too when nothing at all was extracted. -/
def getline (is : IStringStream) (str : Str) (delim : Char) : IStringStream × Str :=
  if is.good then
    match extractUntil delim is.buf with
    | (s, some rest) => (⟨rest, false, false⟩, s)
    | (s, none) => (⟨[], true, s.isEmpty⟩, s)
  else ({ is with failbit := true }, str)

/-! ## `std::map<std::string, std::string>` -/

/-- Comparison of `std::string` values (`operator<`): lexicographic by
character code. -/
def strLt : Str → Str → Bool
  | [], [] => false
  | [], _ :: _ => true
  | _ :: _, [] => false
  | a :: as, b :: bs => a.toNat < b.toNat || (a = b && strLt as bs)

/-- The `values` member: pairs in key order, at most one per key. -/
abbrev StrMap := List (Str × Str)

/-- `values.find(key)`, giving the mapped string (`none` is `values.end()`). -/
def StrMap.find : StrMap → Str → Option Str
  | [], _ => none
  | (k, v) :: m, key => if k = key then some v else StrMap.find m key

/-- Insertion of a new pair at its place in key order. -/
def StrMap.insertSorted : StrMap → Str → Str → StrMap
  | [], key, value => [(key, value)]
  | (k, v) :: m, key, value =>
    if strLt key k then (key, value) :: (k, v) :: m
    else (k, v) :: StrMap.insertSorted m key value

/-- `values.emplace(key, value)`: the map afterwards and `res.second`; a key
that is already present keeps its pair. -/
def StrMap.emplace (m : StrMap) (key value : Str) : StrMap × Bool :=
  match m.find key with
  | some _ => (m, false)
  | none => (m.insertSorted key value, true)

/-! ## The file stream -/

/-- How the line reads of an opened file end. -/
inductive ReadEnd where
  | eof
  | ioError
  deriving DecidableEq, Repr

/-- What `file.open(filename)` finds: the lines that `std::getline(file, line)`
delivers one after the other, and how the read after the last of them fails. -/
structure FileData where
  lines : List Str
  ending : ReadEnd
  deriving DecidableEq, Repr

/-- State of the `std::ifstream` while it is read. -/
structure IFStream where
  lines : List Str
  ending : ReadEnd
  eofbit : Bool
  failbit : Bool
  badbit : Bool
  deriving DecidableEq, Repr

/-- The stream right after a successful `file.open`. -/
def IFStream.ofData (d : FileData) : IFStream := ⟨d.lines, d.ending, false, false, false⟩

/-- `file.good()`. -/
def IFStream.good (f : IFStream) : Bool := !f.eofbit && !f.failbit && !f.badbit

/-- `file.fail()`: `failbit` or `badbit`. -/
def IFStream.fail (f : IFStream) : Bool := f.failbit || f.badbit

/-- `std::getline(file, line)`: delivers the next line; at the end of the file
nothing is extracted and `eofbit` and `failbit` are set; an I/O error sets
`badbit`. -/
def fileGetline (f : IFStream) (line : Str) : IFStream × Str :=
  if f.good then
    match f.lines with
    | l :: ls => ({ f with lines := ls }, l)
    | [] =>
      match f.ending with
      | ReadEnd.eof => ({ f with eofbit := true, failbit := true }, [])
      | ReadEnd.ioError => ({ f with badbit := true }, [])
  else ({ f with failbit := true }, line)

/-! ## The class and its constructor -/

/-- Data members of `ConfigParser` (lines 229-231). -/
structure ConfigParser where
  debugOutput : Bool
  errorFlag : Bool
  values : StrMap
  deriving DecidableEq, Repr

/-- The locals `line`, `key`, `value` of the constructor (line 27); they are
declared outside the loop and so live across iterations. -/
structure Locals where
  line : Str
  key : Str
  value : Str
  deriving DecidableEq, Repr

/-- Lines 41-49 for the line just read into `loc.line`: the locals afterwards,
and the arguments of `values.emplace` when that call is reached. -/
def lineStep (delim comment : Char) (loc : Locals) : Locals × Option (Str × Str) :=
  let line := ltrim loc.line whitespace
  if line.length != 0 && line.head? != some comment then
    let r1 := getline (IStringStream.ofStr line) loc.key delim
    if !r1.1.fail then
      let key := rtrim r1.2 whitespace
      if key.length != 0 && (find key comment).isNone then
        let r2 := getline r1.1 loc.value comment
        if !r2.1.fail then
          let value := trim r2.2 whitespace
          if value.length != 0 then
            (⟨line, key, value⟩, some (key, value))
          else (⟨line, key, value⟩, none)
        else (⟨line, key, r2.2⟩, none)
      else (⟨line, key, loc.value⟩, none)
    else (⟨line, r1.2, loc.value⟩, none)
  else (⟨line, loc.key, loc.value⟩, none)

/-- The `while` loop of lines 28-58; `fuel` bounds the number of iterations. -/
def readLoop (delim comment : Char) :
    Nat → IFStream → Locals → ConfigParser → ConfigParser
  | 0, _, _, cp => cp
  | fuel + 1, file, loc, cp =>
    let r := fileGetline file loc.line
    -- `while (std::getline(file, line))` tests `!file.fail()`
    if r.1.fail then cp
    else if r.1.fail then { cp with errorFlag := true }
    else
      let s := lineStep delim comment { loc with line := r.2 }
      match s.2 with
      | some (key, value) =>
        readLoop delim comment fuel r.1 s.1 { cp with values := (cp.values.emplace key value).1 }
      | none => readLoop delim comment fuel r.1 s.1 cp

/-- The constructor `ConfigParser::ConfigParser` (lines 13-60); `file` is `none`
when the file cannot be opened.  One iteration more than there are lines lets
the loop end by itself. -/
def ConfigParser.construct (file : Option FileData) (delim comment : Char)
    (debugOutput : Bool) : ConfigParser :=
  match file with
  | none => ⟨debugOutput, true, []⟩
  | some d =>
    readLoop delim comment (d.lines.length + 1) (IFStream.ofData d) ⟨[], [], []⟩
      ⟨debugOutput, false, []⟩

/-! ## Host conversions `std::stoi`, `std::stol`, `std::stoul`, `std::stof`

These belong to the C++ standard library, not to the repository.  The integer
ones are written out after the standard (`strtol`/`strtoul` in base 10 on an
LP64 host: 32-bit `int` and `unsigned`, 64-bit `long` and `unsigned long`);
the floating-point one is a parameter. -/

/-- `isspace` in the "C" locale. -/
def isspace (c : Char) : Bool :=
  c = ' ' || c = '\t' || c = '\n' || c = Char.ofNat 11 || c = Char.ofNat 12 || c = '\r'

/-- `isdigit`. -/
def isdigit (c : Char) : Bool := 48 ≤ c.toNat && c.toNat ≤ 57

/-- Value of a run of decimal digits. -/
def digitsValue (ds : Str) : Nat := ds.foldl (fun a c => 10 * a + (c.toNat - 48)) 0

/-- An optional sign at the head of the text: whether it is `-`, and the rest. -/
def takeSign : Str → Bool × Str
  | [] => (false, [])
  | c :: r => if c = '-' then (true, r) else if c = '+' then (false, r) else (false, c :: r)

/-- The subject sequence of `strtol`/`strtoul`: leading white space is skipped,
then an optional sign, then the longest run of digits. -/
def subject (s : Str) : Bool × Str :=
  ((takeSign (s.dropWhile isspace)).1, (takeSign (s.dropWhile isspace)).2.takeWhile isdigit)

/-- The exceptions thrown by the conversions. -/
inductive ConvError where
  | invalid_argument
  | out_of_range
  deriving DecidableEq, Repr

deriving instance DecidableEq for Except

def INT_MIN : Int := -2147483648
def INT_MAX : Int := 2147483647
def LONG_MIN : Int := -9223372036854775808
def LONG_MAX : Int := 9223372036854775807
def ULONG_MAX : Nat := 18446744073709551615

/-- `strtol(s, &end, 10)`: `none` when no digit is found; otherwise the value,
clamped to the range of `long`, and whether `errno` is `ERANGE`. -/
def strtol (s : Str) : Option (Int × Bool) :=
  if (subject s).2.isEmpty then none
  else
    let v : Int := if (subject s).1 then -(digitsValue (subject s).2 : Int)
      else (digitsValue (subject s).2 : Int)
    if v < LONG_MIN then some (LONG_MIN, true)
    else if LONG_MAX < v then some (LONG_MAX, true)
    else some (v, false)

/-- `strtoul(s, &end, 10)`: a magnitude above `ULONG_MAX` is `ERANGE`; a minus
sign negates in `unsigned long` arithmetic. -/
def strtoul (s : Str) : Option (Nat × Bool) :=
  if (subject s).2.isEmpty then none
  else if ULONG_MAX < digitsValue (subject s).2 then some (ULONG_MAX, true)
  else if (subject s).1 then
    some ((ULONG_MAX + 1 - digitsValue (subject s).2) % (ULONG_MAX + 1), false)
  else some (digitsValue (subject s).2, false)

/-- `std::stoi(s)`. -/
def stoi (s : Str) : Except ConvError Int :=
  match strtol s with
  | none => Except.error ConvError.invalid_argument
  | some (v, erange) =>
    if erange || v < INT_MIN || INT_MAX < v then Except.error ConvError.out_of_range
    else Except.ok v

/-- `std::stol(s)`. -/
def stol (s : Str) : Except ConvError Int :=
  match strtol s with
  | none => Except.error ConvError.invalid_argument
  | some (v, erange) =>
    if erange then Except.error ConvError.out_of_range else Except.ok v

/-- `std::stoul(s)`. -/
def stoul (s : Str) : Except ConvError Nat :=
  match strtoul s with
  | none => Except.error ConvError.invalid_argument
  | some (v, erange) =>
    if erange then Except.error ConvError.out_of_range else Except.ok v

/-- The floating-point side of the host: the types `float` and `double`,
`std::stof` (`none` when it throws), the conversion of a `float` to `double`, and
the values that the literal `0` becomes in each type. -/
structure FloatHost where
  F32 : Type
  F64 : Type
  stof : Str → Option F32
  toDouble : F32 → F64
  zero32 : F32
  zero64 : F64

/-! ## The getters -/

/-- The statement `if (!optional) errorFlag = true;`. -/
def ConfigParser.flagUnlessOptional (cp : ConfigParser) (optional : Bool) : ConfigParser :=
  if !optional then { cp with errorFlag := true } else cp

/-- `getString(key, optional)` (lines 64-80). -/
def ConfigParser.getString (cp : ConfigParser) (key : Str) (optional : Bool) :
    (Bool × Str) × ConfigParser :=
  match cp.values.find key with
  | some v => ((true, v), cp)
  | none => ((false, []), cp.flagUnlessOptional optional)

/-- `getString(key, fallback)` (lines 82-88). -/
def ConfigParser.getString_fallback (cp : ConfigParser) (key fallback : Str) :
    (Bool × Str) × ConfigParser :=
  let result := cp.getString key true
  if result.1.1 then result else ((false, fallback), result.2)

/-- `getInt(key, optional)` (lines 90-107). -/
def ConfigParser.getInt (cp : ConfigParser) (key : Str) (optional : Bool) :
    (Bool × Int) × ConfigParser :=
  let res := cp.getString key optional
  if res.1.1 then
    match stoi res.1.2 with
    | Except.ok n => ((true, n), res.2)
    | Except.error _ => ((false, -1), res.2.flagUnlessOptional optional)
  else ((false, -1), res.2.flagUnlessOptional optional)

/-- `getInt(key, fallback)` (lines 109-115). -/
def ConfigParser.getInt_fallback (cp : ConfigParser) (key : Str) (fallback : Int) :
    (Bool × Int) × ConfigParser :=
  let result := cp.getInt key true
  if result.1.1 then result else ((false, fallback), result.2)

/-- `getUInt(key, optional)` (lines 117-134); the `unsigned long` of `std::stoul`
is narrowed to `unsigned` when the pair is converted to the return type. -/
def ConfigParser.getUInt (cp : ConfigParser) (key : Str) (optional : Bool) :
    (Bool × Nat) × ConfigParser :=
  let res := cp.getString key optional
  if res.1.1 then
    match stoul res.1.2 with
    | Except.ok n => ((true, n % 2 ^ 32), res.2)
    | Except.error _ => ((false, 0), res.2.flagUnlessOptional optional)
  else ((false, 0), res.2.flagUnlessOptional optional)

/-- `getUInt(key, fallback)` (lines 136-142). -/
def ConfigParser.getUInt_fallback (cp : ConfigParser) (key : Str) (fallback : Nat) :
    (Bool × Nat) × ConfigParser :=
  let result := cp.getUInt key true
  if result.1.1 then result else ((false, fallback), result.2)

/-- `getLong(key, optional)` (lines 144-161). -/
def ConfigParser.getLong (cp : ConfigParser) (key : Str) (optional : Bool) :
    (Bool × Int) × ConfigParser :=
  let res := cp.getString key optional
  if res.1.1 then
    match stol res.1.2 with
    | Except.ok n => ((true, n), res.2)
    | Except.error _ => ((false, 0), res.2.flagUnlessOptional optional)
  else ((false, 0), res.2.flagUnlessOptional optional)

/-- `getLong(key, fallback)` (lines 163-169). -/
def ConfigParser.getLong_fallback (cp : ConfigParser) (key : Str) (fallback : Int) :
    (Bool × Int) × ConfigParser :=
  let result := cp.getLong key true
  if result.1.1 then result else ((false, fallback), result.2)

/-- `getFloat(key, optional)` (lines 171-188). -/
def ConfigParser.getFloat (h : FloatHost) (cp : ConfigParser) (key : Str) (optional : Bool) :
    (Bool × h.F32) × ConfigParser :=
  let res := cp.getString key optional
  if res.1.1 then
    match h.stof res.1.2 with
    | some x => ((true, x), res.2)
    | none => ((false, h.zero32), res.2.flagUnlessOptional optional)
  else ((false, h.zero32), res.2.flagUnlessOptional optional)

/-- `getFloat(key, fallback)` (lines 190-196). -/
def ConfigParser.getFloat_fallback (h : FloatHost) (cp : ConfigParser) (key : Str) (fallback : h.F32) :
    (Bool × h.F32) × ConfigParser :=
  let result := ConfigParser.getFloat h cp key true
  if result.1.1 then result else ((false, fallback), result.2)

/-- `getDouble(key, optional)` (lines 198-215): the conversion called on line
203 is `std::stof`; its `float` becomes a `double` in the returned pair. -/
def ConfigParser.getDouble (h : FloatHost) (cp : ConfigParser) (key : Str) (optional : Bool) :
    (Bool × h.F64) × ConfigParser :=
  let res := cp.getString key optional
  if res.1.1 then
    match h.stof res.1.2 with
    | some x => ((true, h.toDouble x), res.2)
    | none => ((false, h.zero64), res.2.flagUnlessOptional optional)
  else ((false, h.zero64), res.2.flagUnlessOptional optional)

/-- `getDouble(key, fallback)` (lines 217-223). -/
def ConfigParser.getDouble_fallback (h : FloatHost) (cp : ConfigParser) (key : Str) (fallback : h.F64) :
    (Bool × h.F64) × ConfigParser :=
  let result := ConfigParser.getDouble h cp key true
  if result.1.1 then result else ((false, fallback), result.2)

/-- `getMap()` (line 225). -/
def ConfigParser.getMap (cp : ConfigParser) : StrMap := cp.values

/-- `hasErrors()` (line 226). -/
def ConfigParser.hasErrors (cp : ConfigParser) : Bool := cp.errorFlag

/-- A call of one public member function with its arguments. -/
inductive Call (h : FloatHost) where
  | getString (key : Str) (optional : Bool)
  | getString_fallback (key fallback : Str)
  | getInt (key : Str) (optional : Bool)
  | getInt_fallback (key : Str) (fallback : Int)
  | getUInt (key : Str) (optional : Bool)
  | getUInt_fallback (key : Str) (fallback : Nat)
  | getLong (key : Str) (optional : Bool)
  | getLong_fallback (key : Str) (fallback : Int)
  | getFloat (key : Str) (optional : Bool)
  | getFloat_fallback (key : Str) (fallback : h.F32)
  | getDouble (key : Str) (optional : Bool)
  | getDouble_fallback (key : Str) (fallback : h.F64)
  | getMap
  | hasErrors

/-- The object after a call (`getMap` and `hasErrors` are `const`). -/
def Call.after (h : FloatHost) (cp : ConfigParser) : Call h → ConfigParser
  | Call.getString key optional => (cp.getString key optional).2
  | Call.getString_fallback key fallback => (cp.getString_fallback key fallback).2
  | Call.getInt key optional => (cp.getInt key optional).2
  | Call.getInt_fallback key fallback => (cp.getInt_fallback key fallback).2
  | Call.getUInt key optional => (cp.getUInt key optional).2
  | Call.getUInt_fallback key fallback => (cp.getUInt_fallback key fallback).2
  | Call.getLong key optional => (cp.getLong key optional).2
  | Call.getLong_fallback key fallback => (cp.getLong_fallback key fallback).2
  | Call.getFloat key optional => (ConfigParser.getFloat h cp key optional).2
  | Call.getFloat_fallback key fallback => (ConfigParser.getFloat_fallback h cp key fallback).2
  | Call.getDouble key optional => (ConfigParser.getDouble h cp key optional).2
  | Call.getDouble_fallback key fallback => (ConfigParser.getDouble_fallback h cp key fallback).2
  | Call.getMap => cp
  | Call.hasErrors => cp

/-- The object after a sequence of calls, made from left to right. -/
def runCalls (h : FloatHost) (cp : ConfigParser) (calls : List (Call h)) : ConfigParser :=
  calls.foldl (Call.after h) cp

/-! ## Reference definitions written after the specification -/

/-- Removal of leading white space (specification, section 4.1 step 3a). -/
def stripLeading (s : Str) : Str := s.dropWhile isspace

/-- Removal of trailing white space (specification, section 4.1 step 3d). -/
def stripTrailing (s : Str) : Str := (s.reverse.dropWhile isspace).reverse

/-- The key segment of a line: the text before the first delimiter. -/
def keySegment (l : Str) (d : Char) : Str := l.takeWhile (· != d)

/-- The remainder of a line: the text after the first delimiter. -/
def remainder (l : Str) (d : Char) : Str := (l.dropWhile (· != d)).drop 1

/-- The value segment: the remainder up to, not including, the first comment
character, or all of it when there is none. -/
def valueSegment (l : Str) (d c : Char) : Str := (remainder l d).takeWhile (· != c)

/-- Reference definition of the parse of one line (specification, section 4.1
step 3, in the wording of the claim): the entry the line contributes, if any. -/
def referenceParse (line : Str) (d c : Char) : Option (Str × Str) :=
  let l := stripLeading line
  let key := stripTrailing (keySegment l d)
  let value := stripTrailing (stripLeading (valueSegment l d c))
  if l ≠ [] ∧ l.head? ≠ some c ∧ d ∈ l ∧ key ≠ [] ∧ c ∉ key ∧ value ≠ [] then
    some (key, value)
  else none

/-- The mapping after one more line with the reference parse: a new key is
added, a key already present keeps its value. -/
def addLine (d c : Char) (m : StrMap) (line : Str) : StrMap :=
  match referenceParse line d c with
  | some (key, value) => (m.emplace key value).1
  | none => m

/-- The text starts with a white-space character. -/
def startsWithSpace (s : Str) : Bool :=
  match s.head? with
  | some ch => isspace ch
  | none => false

/-- The text ends with a white-space character. -/
def endsWithSpace (s : Str) : Bool :=
  match s.getLast? with
  | some ch => isspace ch
  | none => false

/-- Number of entries of the mapping that have the given key. -/
def StrMap.keyCount (m : StrMap) (key : Str) : Nat :=
  (m.filter fun p => decide (p.1 = key)).length

/-- Positional value of a run of decimal digits, most significant first. -/
def decimalValue (ds : Str) : Nat :=
  Nat.ofDigits 10 (ds.reverse.map fun ch => ch.toNat - 48)

/-- The integer that a base-10 numeral denotes: an optional sign followed by at
least one digit and nothing else; `none` for any other text. -/
def numeralValue : Str → Option Int
  | [] => none
  | ch :: r =>
    if ch = '-' then
      if r ≠ [] ∧ r.all isdigit = true then some (-(decimalValue r : Int)) else none
    else if ch = '+' then
      if r ≠ [] ∧ r.all isdigit = true then some (decimalValue r : Int) else none
    else if (ch :: r).all isdigit = true then some (decimalValue (ch :: r) : Int)
    else none

/-- No initial part of the text is a base-10 numeral. -/
def NoNumeralStart (s : Str) : Prop :=
  ∀ p rest : Str, s = p ++ rest → numeralValue p = none

/-- A host on which `std::stof` always throws; it serves to run the string and
integer operations on concrete inputs. -/
def noFloatHost : FloatHost := ⟨Unit, Unit, fun _ => none, fun _ => (), (), ()⟩

/-! ## An IEEE 754 host for the floating-point examples

`std::stof` and `std::stod` belong to the C++ standard library.  The model below
covers what the examples need: decimal numerals with an optional fraction and an
optional exponent part, rounded to the nearest value of the format, ties to
even, when the result is in the normal range.  Hexadecimal numerals, infinities
and NaNs, which the library functions also read, are not covered, and a result
outside the normal range is reported as out of range. -/

/-- A finite binary floating-point number
`(-1)^negative * significand * 2^exponent`. -/
structure BinFloat where
  negative : Bool
  significand : Nat
  exponent : Int
  deriving DecidableEq, Repr

/-- The rational number that a binary floating-point number denotes. -/
def BinFloat.toRat (x : BinFloat) : ℚ :=
  (if x.negative then -1 else 1) * (x.significand : ℚ) * (2 : ℚ) ^ x.exponent

/-- The least `k` below the bound with `2^(p-1) * den <= num * 2^k`: how often
the numerator is doubled to bring the quotient up to `p` bits. -/
def upShift (p num den : Nat) : Nat → Nat → Nat
  | 0, k => k
  | fuel + 1, k =>
    if 2 ^ (p - 1) * den ≤ num * 2 ^ k then k else upShift p num den fuel (k + 1)

/-- The least `k` below the bound with `num < 2^p * den * 2^k`: how often the
denominator is doubled to bring the quotient down to `p` bits. -/
def downShift (p num den : Nat) : Nat → Nat → Nat
  | 0, k => k
  | fuel + 1, k =>
    if num < 2 ^ p * (den * 2 ^ k) then k else downShift p num den fuel (k + 1)

/-- Rounding of the quotient `n / d` to an integer, ties to even. -/
def roundHalfEven (n d : Nat) : Nat :=
  if d < 2 * (n % d) ∨ (2 * (n % d) = d ∧ (n / d) % 2 = 1) then n / d + 1 else n / d

/-- The positive rational `num / den` rounded to `p` bits of precision, ties to
even: a significand in `[2^(p-1), 2^p)` and the exponent of its last bit. -/
def roundToPrecision (p num den : Nat) : Nat × Int :=
  let ku := upShift p num den (p + den) 0
  let kd := downShift p num den num 0
  let n := num * 2 ^ ku
  let d := den * 2 ^ kd
  let e : Int := (kd : Int) - (ku : Int)
  if roundHalfEven n d = 2 ^ p then (2 ^ (p - 1), e + 1) else (roundHalfEven n d, e)

/-- The decimal subject sequence of `strtof`/`strtod`: leading white space is
skipped, then an optional sign, digits with an optional point, and an optional
exponent part; `none` when there is no digit.  The result is the sign, the
digits before and after the point, and the decimal exponent. -/
def floatSubject (s : Str) : Option (Bool × Str × Str × Int) :=
  let t := takeSign (s.dropWhile isspace)
  let ip := t.2.takeWhile isdigit
  let r1 := t.2.dropWhile isdigit
  let fp := if r1.head? = some '.' then (r1.drop 1).takeWhile isdigit else []
  let r2 := if r1.head? = some '.' then (r1.drop 1).dropWhile isdigit else r1
  let es := takeSign (r2.drop 1)
  let ed := es.2.takeWhile isdigit
  let ex : Int :=
    if (r2.head? = some 'e' ∨ r2.head? = some 'E') ∧ ed ≠ [] then
      (if es.1 then -(digitsValue ed : Int) else (digitsValue ed : Int))
    else 0
  if ip = [] ∧ fp = [] then none else some (t.1, ip, fp, ex)

/-- Conversion of a decimal text to a binary format with `p` bits of precision
and last-bit exponents from `emin` to `emax`; `none` when the conversion throws
(no digits, or a result outside the normal range). -/
def decimalToBinary (p : Nat) (emin emax : Int) (s : Str) : Option BinFloat :=
  match floatSubject s with
  | none => none
  | some (neg, ip, fp, ex) =>
    let dv := digitsValue (ip ++ fp)
    let k : Int := ex - (fp.length : Int)
    let num := if 0 ≤ k then dv * 10 ^ k.toNat else dv
    let den := if 0 ≤ k then 1 else 10 ^ (-k).toNat
    if dv = 0 then some ⟨neg, 0, 0⟩
    else if (roundToPrecision p num den).2 < emin ∨ emax < (roundToPrecision p num den).2 then
      none
    else some ⟨neg, (roundToPrecision p num den).1, (roundToPrecision p num den).2⟩

/-- `std::stof` on an IEEE 754 host: binary32, 24 bits of precision. -/
def ieeeStof (s : Str) : Option BinFloat := decimalToBinary 24 (-149) 104 s

/-- `std::stod` on an IEEE 754 host: binary64, 53 bits of precision. -/
def ieeeStod (s : Str) : Option BinFloat := decimalToBinary 53 (-1074) 971 s

/-- Conversion of a `float` to `double`: the same number, with the significand
written in 53 bits. -/
def ieeeWiden (x : BinFloat) : BinFloat :=
  if x.significand = 0 then x else ⟨x.negative, x.significand * 2 ^ 29, x.exponent - 29⟩

/-- The IEEE 754 host of the examples. -/
def ieeeHost : FloatHost := ⟨BinFloat, BinFloat, ieeeStof, ieeeWiden, ⟨false, 0, 0⟩, ⟨false, 0, 0⟩⟩

/-- The demonstration file of the specification (section 8). -/
def demoFile : FileData :=
  ⟨["# demo".toList, "foo = 10".toList, "bar=hello world".toList, "pi=3.14 # approx".toList],
    ReadEnd.eof⟩

/-- The store built from the demonstration file with the default delimiter and
comment character. -/
def demoStore : ConfigParser := ConfigParser.construct (some demoFile) '=' '#' false

/-! ## Lemmas on the string helpers -/

theorem contains_whitespace (ch : Char) : whitespace.contains ch = isspace ch := by
  rw [Bool.eq_iff_iff]
  simp only [whitespace, isspace, List.contains_iff_exists_mem_beq, List.mem_cons,
    List.mem_nil_iff, or_false, Bool.or_eq_true, decide_eq_true_eq, beq_iff_eq,
    exists_eq_right']
  tauto

theorem contains_whitespace_fun : whitespace.contains = isspace :=
  funext contains_whitespace

theorem ltrim_cons (c : Char) (cs w : Str) :
    ltrim (c :: cs) w = if w.contains c then ltrim cs w else c :: cs := by
  unfold ltrim
  simp only [find_first_not_of]
  split_ifs with h
  · cases find_first_not_of cs w <;> simp
  · simp

theorem ltrim_eq_dropWhile (s : Str) : ltrim s whitespace = s.dropWhile isspace := by
  induction s with
  | nil => rfl
  | cons c cs ih =>
    rw [ltrim_cons, contains_whitespace, List.dropWhile_cons, ih]

theorem find_last_not_of_append (l w : Str) (x : Char) :
    find_last_not_of (l ++ [x]) w =
      if w.contains x then find_last_not_of l w else some l.length := by
  induction l with
  | nil => simp [find_last_not_of]
  | cons c cs ih =>
    simp only [List.cons_append, find_last_not_of, List.append_eq]
    rw [ih]
    split_ifs with h <;> simp

theorem find_last_not_of_lt (l w : Str) (p : Nat) (h : find_last_not_of l w = some p) :
    p < l.length := by
  induction l generalizing p with
  | nil => simp [find_last_not_of] at h
  | cons c cs ih =>
    simp only [find_last_not_of] at h
    cases hq : find_last_not_of cs w with
    | none =>
      rw [hq] at h
      split_ifs at h
      cases h
      simp
    | some q =>
      rw [hq] at h
      have := ih q hq
      simp only [Option.some.injEq] at h
      simp only [List.length_cons]; omega

theorem find_last_not_of_none (l w : Str) :
    find_last_not_of l w = none ↔ l.all w.contains = true := by
  induction l with
  | nil => simp [find_last_not_of]
  | cons c cs ih =>
    simp only [find_last_not_of, List.all_cons, Bool.and_eq_true]
    cases hq : find_last_not_of cs w with
    | none =>
      rw [hq] at ih
      have := ih.1 rfl
      simp [this]
    | some q =>
      rw [hq] at ih
      simp at ih ⊢
      obtain ⟨x, hx, hx2⟩ := ih
      intro _
      exact ⟨x, hx, by simpa using hx2⟩

theorem rtrim_eq (s w : Str) :
    rtrim s w = if s.all w.contains then s else s.rdropWhile w.contains := by
  induction s using List.reverseRecOn with
  | nil => simp [rtrim, find_last_not_of]
  | append_singleton l x ih =>
    rw [List.rdropWhile_concat]
    unfold rtrim at ih ⊢
    rw [find_last_not_of_append]
    by_cases hx : w.contains x = true
    · simp only [hx, if_true, List.all_append, List.all_cons, List.all_nil, Bool.and_true]
      cases hq : find_last_not_of l w with
      | none =>
        have := (find_last_not_of_none l w).1 hq
        simp [this]
      | some q =>
        have hlt := find_last_not_of_lt l w q hq
        have hna : ¬ (l.all w.contains = true) := by
          rw [← find_last_not_of_none, hq]; simp
        rw [hq] at ih
        simp only [hna] at ih
        simp only [hna]
        simp only [List.length_append, List.length_singleton]
        rw [if_pos (by omega)]
        simp at ih ⊢
        rw [← ih, List.take_append_of_le_length (by omega)]
        split_ifs with h
        · rfl
        · have : q + 1 = l.length := by omega
          rw [this]; simp
    · simp only [hx, if_false, List.all_append, List.all_cons, Bool.false_and, Bool.and_false,
        List.length_append, List.length_singleton, Bool.false_eq_true]
      simp

theorem extractUntil_fst (d : Char) (s : Str) :
    (extractUntil d s).1 = s.takeWhile (· != d) := by
  induction s with
  | nil => rfl
  | cons x xs ih =>
    simp only [extractUntil, List.takeWhile_cons]
    by_cases h : x = d
    · simp [h]
    · simp [h, ih]

theorem extractUntil_snd (d : Char) (s : Str) :
    (extractUntil d s).2 = if d ∈ s then some ((s.dropWhile (· != d)).drop 1) else none := by
  induction s with
  | nil => rfl
  | cons x xs ih =>
    simp only [extractUntil, List.dropWhile_cons, List.mem_cons]
    by_cases h : x = d
    · simp [h]
    · have h2 : ¬ d = x := fun e => h e.symm
      simp [h, h2, ih]

theorem takeWhile_ne_of_not_mem (d : Char) (s : Str) (h : d ∉ s) :
    s.takeWhile (· != d) = s := by
  induction s with
  | nil => rfl
  | cons x xs ih =>
    simp only [List.mem_cons, not_or] at h
    have h2 : x ≠ d := fun e => h.1 e.symm
    simp [List.takeWhile_cons, h2, ih h.2]

theorem getline_fresh (b str : Str) (d : Char) :
    getline ⟨b, false, false⟩ str d =
      if d ∈ b then (⟨remainder b d, false, false⟩, keySegment b d)
      else (⟨[], true, b.isEmpty⟩, b) := by
  have h1 := extractUntil_fst d b
  have h2 := extractUntil_snd d b
  unfold getline
  simp only [IStringStream.good, Bool.not_false, Bool.and_self, if_true]
  rcases hx : extractUntil d b with ⟨s, r⟩
  rw [hx] at h1 h2
  simp only at h1 h2
  subst h1
  by_cases hd : d ∈ b
  · simp only [hd, if_true] at h2 ⊢
    subst h2
    rfl
  · simp only [hd, if_false] at h2 ⊢
    subst h2
    simp only [takeWhile_ne_of_not_mem d b hd]

theorem find_isNone (s : Str) (c : Char) : (find s c).isNone = true ↔ c ∉ s := by
  induction s with
  | nil => simp [find]
  | cons x xs ih =>
    simp only [find, List.mem_cons, not_or]
    by_cases h : x = c
    · simp [h]
    · have h2 : ¬ c = x := fun e => h e.symm
      simp only [h, if_false, Option.isNone_map', ih, h2, not_false_eq_true, true_and]

theorem rtrim_eq_stripTrailing (s : Str) (h : s.all isspace = true → s = []) :
    rtrim s whitespace = stripTrailing s := by
  rw [rtrim_eq, contains_whitespace_fun]
  by_cases ha : s.all isspace = true
  · rw [h ha]; rfl
  · simp only [ha]; rfl

theorem trim_eq (s w : Str) : trim s w = stripTrailing (stripLeading s) := by
  unfold trim
  rw [ltrim_eq_dropWhile]
  apply rtrim_eq_stripTrailing
  intro h
  cases hd : s.dropWhile isspace with
  | nil => rfl
  | cons x xs =>
    have := List.head_dropWhile_not isspace s (by simp [hd])
    simp only [hd, List.head_cons] at this
    rw [hd] at h
    simp [this] at h

/-! ## The loop body and the loop -/

theorem dropWhile_isspace_head (s : Str) (x : Char) (xs : Str)
    (h : s.dropWhile isspace = x :: xs) : isspace x = false := by
  have := List.head_dropWhile_not isspace s (by simp [h])
  simpa [h] using this

theorem keySegment_all_isspace (x : Char) (xs : Str) (d : Char) (hx : isspace x = false)
    (h : (keySegment (x :: xs) d).all isspace = true) : keySegment (x :: xs) d = [] := by
  unfold keySegment at h ⊢
  rw [List.takeWhile_cons] at h ⊢
  split_ifs at h ⊢ with hd
  · simp [hx] at h
  · rfl

/-- The entry that the loop body hands to `emplace` is the reference parse of
the line, whatever the locals `key` and `value` held before. -/
theorem lineStep_entry (d c : Char) (loc : Locals) :
    (lineStep d c loc).2 = referenceParse loc.line d c := by
  unfold lineStep referenceParse
  simp only [ltrim_eq_dropWhile, trim_eq]
  simp only [stripLeading, IStringStream.ofStr, getline_fresh]
  have hhead := dropWhile_isspace_head loc.line
  generalize loc.line.dropWhile isspace = l at hhead
  cases l with
  | nil => simp
  | cons x xs =>
    have hx := hhead x xs rfl
    by_cases hxc : x = c
    · simp [hxc]
    · by_cases hd : d ∈ x :: xs
      · simp only [hd, if_true]
        rw [rtrim_eq_stripTrailing _ (keySegment_all_isspace x xs d hx)]
        simp only [IStringStream.fail, valueSegment]
        generalize stripTrailing (keySegment (x :: xs) d) = key
        generalize remainder (x :: xs) d = rem
        have hf := find_isNone key c
        by_cases hk : key = []
        · simp [hk, hxc]
        · by_cases hck : c ∈ key
          · have hf2 : (find key c).isNone = false := by
              rw [Bool.eq_false_iff]; intro h; exact (hf.1 h) hck
            simp [hck, hk, hxc, hf2]
          · have hf2 := hf.2 hck
            by_cases hcr : c ∈ rem
            · simp only [getline_fresh, hcr, if_true]
              simp [hck, hk, hxc, hf2, keySegment]
              split_ifs <;> rfl
            · simp only [getline_fresh, hcr, if_false, takeWhile_ne_of_not_mem c rem hcr]
              cases rem with
              | nil => simp [hck, hk, hxc, hf2, stripTrailing]
              | cons r rs =>
                simp [hck, hk, hxc, hf2]
                split_ifs <;> rfl
      · simp only [hd, if_false, IStringStream.fail, getline, IStringStream.good]
        simp
        split_ifs
        rfl

theorem readLoop_eq (d c : Char) (e : ReadEnd) (ls : List Str) :
    ∀ (fuel : Nat) (loc : Locals) (cp : ConfigParser), ls.length < fuel →
      readLoop d c fuel ⟨ls, e, false, false, false⟩ loc cp =
        { cp with values := ls.foldl (addLine d c) cp.values } := by
  induction ls with
  | nil =>
    intro fuel loc cp hf
    cases fuel with
    | zero => simp at hf
    | succ n =>
      cases e <;> simp [readLoop, fileGetline, IFStream.good, IFStream.fail]
  | cons l ls ih =>
    intro fuel loc cp hf
    cases fuel with
    | zero => simp at hf
    | succ n =>
      have hn : ls.length < n := by simpa using hf
      simp only [readLoop, fileGetline, IFStream.good, IFStream.fail, Bool.not_false,
        Bool.and_self, if_true, Bool.or_self, Bool.false_eq_true, if_false, lineStep_entry,
        List.foldl_cons, addLine]
      cases hp : referenceParse l d c with
      | none => simp only [ih n _ cp hn]
      | some kv =>
        obtain ⟨k, v⟩ := kv
        simp only [ih n _ _ hn]

/-- The constructor on a file that opens: every line is read, and the mapping is
built line by line from the reference parse; the error flag stays clear. -/
theorem construct_some (ls : List Str) (e : ReadEnd) (d c : Char) (dbg : Bool) :
    ConfigParser.construct (some ⟨ls, e⟩) d c dbg =
      ⟨dbg, false, ls.foldl (addLine d c) []⟩ := by
  simp only [ConfigParser.construct, IFStream.ofData]
  rw [readLoop_eq d c e ls _ _ _ (Nat.lt_succ_self _)]

/-- More fuel than there are lines never changes what the loop computes. -/
theorem readLoop_fuel (d c : Char) (f : FileData) (fuel : Nat) (loc : Locals)
    (cp : ConfigParser) (h : f.lines.length < fuel) :
    readLoop d c fuel (IFStream.ofData f) loc cp =
      readLoop d c (f.lines.length + 1) (IFStream.ofData f) loc cp := by
  simp only [IFStream.ofData]
  rw [readLoop_eq d c f.ending f.lines _ _ _ h,
    readLoop_eq d c f.ending f.lines _ _ _ (Nat.lt_succ_self _)]

/-! ## Lemmas on the map -/

theorem insertSorted_perm (m : StrMap) (k v : Str) :
    (m.insertSorted k v).Perm ((k, v) :: m) := by
  induction m with
  | nil => exact List.Perm.refl _
  | cons p m ih =>
    obtain ⟨k1, v1⟩ := p
    simp only [StrMap.insertSorted]
    split_ifs
    · exact List.Perm.refl _
    · exact (List.Perm.cons _ ih).trans (List.Perm.swap _ _ _)

theorem find_insertSorted_self (m : StrMap) (k v : Str) (h : m.find k = none) :
    (m.insertSorted k v).find k = some v := by
  induction m with
  | nil => simp [StrMap.insertSorted, StrMap.find]
  | cons p m ih =>
    obtain ⟨k1, v1⟩ := p
    simp only [StrMap.find] at h
    split_ifs at h with hk
    simp only [StrMap.insertSorted]
    split_ifs
    · simp [StrMap.find]
    · simp [StrMap.find, hk, ih h]

theorem find_insertSorted_other (m : StrMap) (k v k1 : Str) (h : k ≠ k1) :
    (m.insertSorted k v).find k1 = m.find k1 := by
  induction m with
  | nil => simp [StrMap.insertSorted, StrMap.find, h]
  | cons p m ih =>
    obtain ⟨k2, v2⟩ := p
    simp only [StrMap.insertSorted]
    split_ifs
    · simp [StrMap.find, h]
    · simp [StrMap.find, ih]

theorem find_isSome_iff (m : StrMap) (k : Str) :
    (∃ v, m.find k = some v) ↔ k ∈ m.map Prod.fst := by
  induction m with
  | nil => simp [StrMap.find]
  | cons p m ih =>
    obtain ⟨k1, v1⟩ := p
    simp only [StrMap.find, List.map_cons, List.mem_cons]
    by_cases hk : k1 = k
    · simp [hk]
    · have hk2 : ¬ k = k1 := fun e => hk e.symm
      simp only [hk, if_false, ih, hk2, false_or]

theorem find_mem (m : StrMap) (k v : Str) (h : m.find k = some v) : (k, v) ∈ m := by
  induction m with
  | nil => simp [StrMap.find] at h
  | cons p m ih =>
    obtain ⟨k1, v1⟩ := p
    simp only [StrMap.find] at h
    split_ifs at h with hk
    · cases h; simp [hk]
    · exact List.mem_cons_of_mem _ (ih h)

theorem emplace_find_kept (m : StrMap) (k v k1 w : Str) (h : m.find k1 = some w) :
    (m.emplace k v).1.find k1 = some w := by
  unfold StrMap.emplace
  cases hk : m.find k with
  | some _ => exact h
  | none =>
    have hne : k ≠ k1 := by
      intro e; rw [e, h] at hk; cases hk
    simp only [find_insertSorted_other m k v k1 hne, h]

theorem emplace_find_new (m : StrMap) (k v : Str) (h : m.find k = none) :
    (m.emplace k v).1.find k = some v := by
  unfold StrMap.emplace
  simp only [h, find_insertSorted_self m k v h]

theorem emplace_find_other (m : StrMap) (k v k1 : Str) (h : k ≠ k1) :
    (m.emplace k v).1.find k1 = m.find k1 := by
  unfold StrMap.emplace
  cases hk : m.find k with
  | some _ => rfl
  | none => exact find_insertSorted_other m k v k1 h

theorem emplace_present (m : StrMap) (k v w : Str) (h : m.find k = some w) :
    (m.emplace k v).1 = m := by
  unfold StrMap.emplace
  simp only [h]

theorem emplace_mem (m : StrMap) (k v : Str) (p : Str × Str) (h : p ∈ (m.emplace k v).1) :
    p ∈ m ∨ p = (k, v) := by
  unfold StrMap.emplace at h
  cases hk : m.find k with
  | some _ => rw [hk] at h; exact Or.inl h
  | none =>
    rw [hk] at h
    have := (insertSorted_perm m k v).mem_iff.1 h
    simp only [List.mem_cons] at this
    tauto

theorem emplace_nodup (m : StrMap) (k v : Str) (h : (m.map Prod.fst).Nodup) :
    (((m.emplace k v).1).map Prod.fst).Nodup := by
  unfold StrMap.emplace
  cases hk : m.find k with
  | some _ => exact h
  | none =>
    have hp := (insertSorted_perm m k v).map Prod.fst
    refine hp.nodup_iff.2 ?_
    simp only [List.map_cons, List.nodup_cons]
    refine ⟨?_, h⟩
    intro hmem
    obtain ⟨w, hw⟩ := (find_isSome_iff m k).2 hmem
    rw [hk] at hw; cases hw

/-! ## Lemmas on the mapping built from a list of lines -/

theorem addLine_none (d c : Char) (m : StrMap) (l : Str) (h : referenceParse l d c = none) :
    addLine d c m l = m := by
  simp only [addLine, h]

theorem addLine_find_kept (d c : Char) (m : StrMap) (l k w : Str) (h : m.find k = some w) :
    (addLine d c m l).find k = some w := by
  unfold addLine
  cases hp : referenceParse l d c with
  | none => exact h
  | some kv => exact emplace_find_kept m kv.1 kv.2 k w h

theorem foldl_addLine_find_kept (d c : Char) (ls : List Str) :
    ∀ (m : StrMap) (k w : Str), m.find k = some w →
      (ls.foldl (addLine d c) m).find k = some w := by
  induction ls with
  | nil => intro m k w h; exact h
  | cons l ls ih =>
    intro m k w h
    exact ih _ k w (addLine_find_kept d c m l k w h)

theorem foldl_addLine_find_none (d c : Char) (k : Str) (ls : List Str) :
    ∀ (m : StrMap), m.find k = none →
      (∀ l ∈ ls, ∀ v, referenceParse l d c ≠ some (k, v)) →
      (ls.foldl (addLine d c) m).find k = none := by
  induction ls with
  | nil => intro m h _; exact h
  | cons l ls ih =>
    intro m h hno
    refine ih _ ?_ (fun l1 hl1 => hno l1 (List.mem_cons_of_mem _ hl1))
    unfold addLine
    cases hp : referenceParse l d c with
    | none => exact h
    | some kv =>
      obtain ⟨k1, v1⟩ := kv
      have hne : k1 ≠ k := by
        intro e
        exact hno l (List.mem_cons_self _ _) v1 (by rw [hp, e])
      simp only [emplace_find_other m k1 v1 k hne, h]

theorem addLine_entry (d c : Char) (m : StrMap) (l k v : Str)
    (hp : referenceParse l d c = some (k, v)) (h : m.find k = none) :
    (addLine d c m l).find k = some v := by
  simp only [addLine, hp, emplace_find_new m k v h]

theorem addLine_present (d c : Char) (m : StrMap) (l k v w : Str)
    (hp : referenceParse l d c = some (k, v)) (h : m.find k = some w) :
    addLine d c m l = m := by
  simp only [addLine, hp, emplace_present m k v w h]

theorem foldl_addLine_nodup (d c : Char) (ls : List Str) :
    ∀ (m : StrMap), (m.map Prod.fst).Nodup →
      ((ls.foldl (addLine d c) m).map Prod.fst).Nodup := by
  induction ls with
  | nil => intro m h; exact h
  | cons l ls ih =>
    intro m h
    refine ih _ ?_
    unfold addLine
    cases hp : referenceParse l d c with
    | none => exact h
    | some kv => exact emplace_nodup m kv.1 kv.2 h

theorem foldl_addLine_mem (d c : Char) (ls : List Str) :
    ∀ (m : StrMap) (p : Str × Str), p ∈ ls.foldl (addLine d c) m →
      p ∈ m ∨ ∃ l ∈ ls, referenceParse l d c = some p := by
  induction ls with
  | nil => intro m p h; exact Or.inl h
  | cons l ls ih =>
    intro m p h
    rcases ih _ p h with h1 | ⟨l1, hl1, hp1⟩
    · unfold addLine at h1
      cases hp : referenceParse l d c with
      | none => rw [hp] at h1; exact Or.inl h1
      | some kv =>
        rw [hp] at h1
        rcases emplace_mem m kv.1 kv.2 p h1 with h2 | h2
        · exact Or.inl h2
        · exact Or.inr ⟨l, List.mem_cons_self _ _, by rw [hp, h2]⟩
    · exact Or.inr ⟨l1, List.mem_cons_of_mem _ hl1, hp1⟩

theorem foldl_addLine_skip (d c : Char) (pre post : List Str) (l : Str) (m : StrMap)
    (h : referenceParse l d c = none) :
    (pre ++ l :: post).foldl (addLine d c) m = (pre ++ post).foldl (addLine d c) m := by
  simp only [List.foldl_append, List.foldl_cons, addLine_none d c _ l h]

theorem stripped_ends (s : Str) (h : stripTrailing (stripLeading s) ≠ []) :
    (∀ ch, (stripTrailing (stripLeading s)).head? = some ch → isspace ch = false) ∧
    (∀ ch, (stripTrailing (stripLeading s)).getLast? = some ch → isspace ch = false) := by
  constructor
  · intro ch hch
    have hpre : stripTrailing (stripLeading s) <+: stripLeading s :=
      List.rdropWhile_prefix isspace (stripLeading s)
    obtain ⟨t, ht⟩ := hpre
    cases hs : stripTrailing (stripLeading s) with
    | nil => exact absurd hs h
    | cons x xs =>
      rw [hs] at hch ht
      simp only [List.head?_cons, Option.some.injEq] at hch
      subst hch
      exact dropWhile_isspace_head s x (xs ++ t) ht.symm
  · intro ch hch
    have := List.rdropWhile_last_not isspace (stripLeading s) h
    rw [List.getLast?_eq_getLast _ h] at hch
    simp only [Option.some.injEq] at hch
    rw [← hch]
    simpa using this

theorem referenceParse_some (l : Str) (d c : Char) (k v : Str)
    (h : referenceParse l d c = some (k, v)) :
    k = stripTrailing (keySegment (stripLeading l) d) ∧
    v = stripTrailing (stripLeading (valueSegment (stripLeading l) d c)) ∧
    stripLeading l ≠ [] ∧ (stripLeading l).head? ≠ some c ∧ d ∈ stripLeading l ∧
    k ≠ [] ∧ c ∉ k ∧ v ≠ [] := by
  unfold referenceParse at h
  simp only at h
  split_ifs at h with hc
  simp only [Option.some.injEq, Prod.mk.injEq] at h
  obtain ⟨h1, h2⟩ := h
  subst h1 h2
  exact ⟨rfl, rfl, hc⟩

theorem keyCount_eq_zero (m : StrMap) (k : Str) (h : k ∉ m.map Prod.fst) :
    m.keyCount k = 0 := by
  unfold StrMap.keyCount
  rw [List.length_eq_zero, List.filter_eq_nil_iff]
  intro p hp hk
  exact h (List.mem_map.2 ⟨p, hp, by simpa using hk⟩)

theorem keyCount_eq_one (m : StrMap) (k : Str) (hnd : (m.map Prod.fst).Nodup)
    (h : k ∈ m.map Prod.fst) : m.keyCount k = 1 := by
  induction m with
  | nil => simp at h
  | cons p m ih =>
    simp only [List.map_cons, List.nodup_cons, List.mem_cons] at hnd h
    by_cases hk : p.1 = k
    · have h0 := keyCount_eq_zero m k (hk ▸ hnd.1)
      unfold StrMap.keyCount at h0 ⊢
      simp [List.filter_cons, hk, h0]
    · have hk2 : ¬ k = p.1 := fun e => hk e.symm
      have h1 := ih hnd.2 (by tauto)
      unfold StrMap.keyCount at h1 ⊢
      simp [List.filter_cons, hk, h1]

theorem referenceParse_value (d c : Char) (l k v : Str)
    (h : referenceParse l d c = some (k, v)) :
    v ≠ [] ∧ startsWithSpace v = false ∧ endsWithSpace v = false := by
  obtain ⟨_, hv, _, _, _, _, _, hne⟩ := referenceParse_some l d c k v h
  subst hv
  obtain ⟨hh, hl⟩ := stripped_ends _ hne
  refine ⟨hne, ?_, ?_⟩
  · unfold startsWithSpace
    cases hx : (stripTrailing (stripLeading (valueSegment (stripLeading l) d c))).head? with
    | none => rfl
    | some ch => exact hh ch hx
  · unfold endsWithSpace
    cases hx : (stripTrailing (stripLeading (valueSegment (stripLeading l) d c))).getLast? with
    | none => rfl
    | some ch => exact hl ch hx

/-! ## Lemmas on the getters -/

theorem flagUnlessOptional_values (cp : ConfigParser) (o : Bool) :
    (cp.flagUnlessOptional o).values = cp.values := by
  cases o <;> rfl

theorem flagUnlessOptional_flag (cp : ConfigParser) (o : Bool) :
    (cp.flagUnlessOptional o).errorFlag = (cp.errorFlag || !o) := by
  cases o <;> simp [ConfigParser.flagUnlessOptional]

theorem flagUnlessOptional_true (cp : ConfigParser) : cp.flagUnlessOptional true = cp := rfl

theorem getString_flag (cp : ConfigParser) (key : Str) (o : Bool)
    (h : cp.errorFlag = true) : (cp.getString key o).2.errorFlag = true := by
  unfold ConfigParser.getString
  cases cp.values.find key <;> simp [flagUnlessOptional_flag, h]

theorem getString_optional_state (cp : ConfigParser) (key : Str) :
    (cp.getString key true).2 = cp := by
  unfold ConfigParser.getString
  cases cp.values.find key <;> rfl

theorem getInt_flag (cp : ConfigParser) (key : Str) (o : Bool)
    (h : cp.errorFlag = true) : (cp.getInt key o).2.errorFlag = true := by
  have hs := getString_flag cp key o h
  unfold ConfigParser.getInt
  simp only
  split_ifs
  · cases stoi (cp.getString key o).1.2 <;> simp [flagUnlessOptional_flag, hs]
  · simp [flagUnlessOptional_flag, hs]

theorem getUInt_flag (cp : ConfigParser) (key : Str) (o : Bool)
    (h : cp.errorFlag = true) : (cp.getUInt key o).2.errorFlag = true := by
  have hs := getString_flag cp key o h
  unfold ConfigParser.getUInt
  simp only
  split_ifs
  · cases stoul (cp.getString key o).1.2 <;> simp [flagUnlessOptional_flag, hs]
  · simp [flagUnlessOptional_flag, hs]

theorem getLong_flag (cp : ConfigParser) (key : Str) (o : Bool)
    (h : cp.errorFlag = true) : (cp.getLong key o).2.errorFlag = true := by
  have hs := getString_flag cp key o h
  unfold ConfigParser.getLong
  simp only
  split_ifs
  · cases stol (cp.getString key o).1.2 <;> simp [flagUnlessOptional_flag, hs]
  · simp [flagUnlessOptional_flag, hs]

theorem getFloat_flag (h : FloatHost) (cp : ConfigParser) (key : Str) (o : Bool)
    (hf : cp.errorFlag = true) : (ConfigParser.getFloat h cp key o).2.errorFlag = true := by
  have hs := getString_flag cp key o hf
  unfold ConfigParser.getFloat
  simp only
  split_ifs
  · cases h.stof (cp.getString key o).1.2 <;> simp [flagUnlessOptional_flag, hs]
  · simp [flagUnlessOptional_flag, hs]

theorem getDouble_flag (h : FloatHost) (cp : ConfigParser) (key : Str) (o : Bool)
    (hf : cp.errorFlag = true) : (ConfigParser.getDouble h cp key o).2.errorFlag = true := by
  have hs := getString_flag cp key o hf
  unfold ConfigParser.getDouble
  simp only
  split_ifs
  · cases h.stof (cp.getString key o).1.2 <;> simp [flagUnlessOptional_flag, hs]
  · simp [flagUnlessOptional_flag, hs]

theorem getInt_optional_state (cp : ConfigParser) (key : Str) :
    (cp.getInt key true).2 = cp := by
  unfold ConfigParser.getInt
  simp only [getString_optional_state, flagUnlessOptional_true]
  split_ifs
  · cases stoi (cp.getString key true).1.2 <;> rfl
  · rfl

theorem getUInt_optional_state (cp : ConfigParser) (key : Str) :
    (cp.getUInt key true).2 = cp := by
  unfold ConfigParser.getUInt
  simp only [getString_optional_state, flagUnlessOptional_true]
  split_ifs
  · cases stoul (cp.getString key true).1.2 <;> rfl
  · rfl

theorem getLong_optional_state (cp : ConfigParser) (key : Str) :
    (cp.getLong key true).2 = cp := by
  unfold ConfigParser.getLong
  simp only [getString_optional_state, flagUnlessOptional_true]
  split_ifs
  · cases stol (cp.getString key true).1.2 <;> rfl
  · rfl

theorem getFloat_optional_state (h : FloatHost) (cp : ConfigParser) (key : Str) :
    (ConfigParser.getFloat h cp key true).2 = cp := by
  unfold ConfigParser.getFloat
  simp only [getString_optional_state, flagUnlessOptional_true]
  split_ifs
  · cases h.stof (cp.getString key true).1.2 <;> rfl
  · rfl

theorem getDouble_optional_state (h : FloatHost) (cp : ConfigParser) (key : Str) :
    (ConfigParser.getDouble h cp key true).2 = cp := by
  unfold ConfigParser.getDouble
  simp only [getString_optional_state, flagUnlessOptional_true]
  split_ifs
  · cases h.stof (cp.getString key true).1.2 <;> rfl
  · rfl

theorem getString_fallback_state (cp : ConfigParser) (key fb : Str) :
    (cp.getString_fallback key fb).2 = cp := by
  unfold ConfigParser.getString_fallback
  simp only
  split_ifs <;> exact getString_optional_state cp key

theorem getInt_fallback_state (cp : ConfigParser) (key : Str) (fb : Int) :
    (cp.getInt_fallback key fb).2 = cp := by
  unfold ConfigParser.getInt_fallback
  simp only
  split_ifs <;> exact getInt_optional_state cp key

theorem getUInt_fallback_state (cp : ConfigParser) (key : Str) (fb : Nat) :
    (cp.getUInt_fallback key fb).2 = cp := by
  unfold ConfigParser.getUInt_fallback
  simp only
  split_ifs <;> exact getUInt_optional_state cp key

theorem getLong_fallback_state (cp : ConfigParser) (key : Str) (fb : Int) :
    (cp.getLong_fallback key fb).2 = cp := by
  unfold ConfigParser.getLong_fallback
  simp only
  split_ifs <;> exact getLong_optional_state cp key

theorem getFloat_fallback_state (h : FloatHost) (cp : ConfigParser) (key : Str) (fb : h.F32) :
    (ConfigParser.getFloat_fallback h cp key fb).2 = cp := by
  unfold ConfigParser.getFloat_fallback
  simp only
  split_ifs <;> exact getFloat_optional_state h cp key

theorem getDouble_fallback_state (h : FloatHost) (cp : ConfigParser) (key : Str)
    (fb : h.F64) : (ConfigParser.getDouble_fallback h cp key fb).2 = cp := by
  unfold ConfigParser.getDouble_fallback
  simp only
  split_ifs <;> exact getDouble_optional_state h cp key

theorem after_flag (h : FloatHost) (cp : ConfigParser) (call : Call h)
    (hf : cp.errorFlag = true) : (Call.after h cp call).errorFlag = true := by
  cases call with
  | getString key o => exact getString_flag cp key o hf
  | getString_fallback key fb => simp only [Call.after, getString_fallback_state, hf]
  | getInt key o => exact getInt_flag cp key o hf
  | getInt_fallback key fb => simp only [Call.after, getInt_fallback_state, hf]
  | getUInt key o => exact getUInt_flag cp key o hf
  | getUInt_fallback key fb => simp only [Call.after, getUInt_fallback_state, hf]
  | getLong key o => exact getLong_flag cp key o hf
  | getLong_fallback key fb => simp only [Call.after, getLong_fallback_state, hf]
  | getFloat key o => exact getFloat_flag h cp key o hf
  | getFloat_fallback key fb => simp only [Call.after, getFloat_fallback_state, hf]
  | getDouble key o => exact getDouble_flag h cp key o hf
  | getDouble_fallback key fb => simp only [Call.after, getDouble_fallback_state, hf]
  | getMap => exact hf
  | hasErrors => exact hf

/-! ## Lemmas on the integer conversion -/

theorem digitsValue_append (l : Str) (x : Char) :
    digitsValue (l ++ [x]) = 10 * digitsValue l + (x.toNat - 48) := by
  simp [digitsValue, List.foldl_append]

theorem digitsValue_eq_decimalValue (ds : Str) : digitsValue ds = decimalValue ds := by
  induction ds using List.reverseRecOn with
  | nil => simp [digitsValue, decimalValue]
  | append_singleton l x ih =>
    rw [digitsValue_append, ih]
    simp only [decimalValue, List.reverse_append, List.reverse_cons, List.reverse_nil,
      List.nil_append, List.singleton_append, List.map_cons, Nat.ofDigits_cons]
    exact Nat.add_comm _ _

theorem isdigit_toNat (ch : Char) (h : isdigit ch = true) : 48 ≤ ch.toNat ∧ ch.toNat ≤ 57 := by
  simpa [isdigit] using h

theorem isdigit_not_isspace (ch : Char) (h : isdigit ch = true) : isspace ch = false := by
  have hd := isdigit_toNat ch h
  rw [Bool.eq_false_iff]
  intro hs
  simp only [isspace, Bool.or_eq_true, decide_eq_true_eq] at hs
  rcases hs with ((((hs | hs) | hs) | hs) | hs) | hs <;>
    · rw [hs] at hd
      revert hd
      decide

theorem isdigit_ne_minus (ch : Char) (h : isdigit ch = true) : ch ≠ '-' := by
  have hd := isdigit_toNat ch h
  intro hs
  rw [hs] at hd
  revert hd
  decide

theorem isdigit_ne_plus (ch : Char) (h : isdigit ch = true) : ch ≠ '+' := by
  have hd := isdigit_toNat ch h
  intro hs
  rw [hs] at hd
  revert hd
  decide

theorem takeWhile_isdigit_all (ds : Str) (h : ds.all isdigit = true) :
    ds.takeWhile isdigit = ds := by
  rw [List.takeWhile_eq_self_iff]
  intro x hx
  exact List.all_eq_true.1 h x hx

theorem subject_minus (r : Str) (h : r.all isdigit = true) : subject ('-' :: r) = (true, r) := by
  have hs : isspace '-' = false := by decide
  simp only [subject, List.dropWhile_cons, hs, takeSign, if_true, takeWhile_isdigit_all r h,
    Bool.false_eq_true, if_false]

theorem subject_plus (r : Str) (h : r.all isdigit = true) : subject ('+' :: r) = (false, r) := by
  have hs : isspace '+' = false := by decide
  have hm : ¬ ('+' = '-') := by decide
  simp only [subject, List.dropWhile_cons, hs, takeSign, hm, if_true, if_false,
    takeWhile_isdigit_all r h, Bool.false_eq_true]

theorem subject_digits (ch : Char) (r : Str) (h : (ch :: r).all isdigit = true) :
    subject (ch :: r) = (false, ch :: r) := by
  have hd : isdigit ch = true := by
    simp only [List.all_cons, Bool.and_eq_true] at h; exact h.1
  simp only [subject, List.dropWhile_cons, isdigit_not_isspace ch hd, takeSign,
    isdigit_ne_minus ch hd, isdigit_ne_plus ch hd, if_false, takeWhile_isdigit_all _ h,
    Bool.false_eq_true]

theorem stoi_of_subject (s ds : Str) (neg : Bool) (hs : subject s = (neg, ds))
    (hne : ds ≠ []) (n : Int)
    (hn : n = if neg then -(decimalValue ds : Int) else (decimalValue ds : Int))
    (hlo : INT_MIN ≤ n) (hhi : n ≤ INT_MAX) : stoi s = Except.ok n := by
  have he : ds.isEmpty = false := by
    cases ds with
    | nil => exact absurd rfl hne
    | cons _ _ => rfl
  unfold stoi strtol
  simp only [hs, he, Bool.false_eq_true, if_false, digitsValue_eq_decimalValue, ← hn]
  unfold INT_MIN at hlo
  unfold INT_MAX at hhi
  have h1 : ¬ n < LONG_MIN := by unfold LONG_MIN; omega
  have h2 : ¬ LONG_MAX < n := by unfold LONG_MAX; omega
  have h3 : ¬ n < INT_MIN := by unfold INT_MIN; omega
  have h4 : ¬ INT_MAX < n := by unfold INT_MAX; omega
  simp [h1, h2, h3, h4]

theorem stoi_numeral (s : Str) (n : Int) (h : numeralValue s = some n)
    (hlo : INT_MIN ≤ n) (hhi : n ≤ INT_MAX) : stoi s = Except.ok n := by
  cases s with
  | nil => simp [numeralValue] at h
  | cons ch r =>
    simp only [numeralValue] at h
    split_ifs at h with h1 h2 h3 h4 h5
    · subst h1
      simp only [Option.some.injEq] at h
      exact stoi_of_subject _ r true (subject_minus r h2.2) h2.1 n (by simp [← h]) hlo hhi
    · subst h3
      simp only [Option.some.injEq] at h
      exact stoi_of_subject _ r false (subject_plus r h4.2) h4.1 n (by simp [← h]) hlo hhi
    · simp only [Option.some.injEq] at h
      exact stoi_of_subject _ (ch :: r) false (subject_digits ch r h5) (by simp) n
        (by simp [← h]) hlo hhi

theorem takeWhile_isdigit_isEmpty (l : Str)
    (hl : ∀ x r, l = x :: r → isdigit x = false) : (l.takeWhile isdigit).isEmpty = true := by
  cases l with
  | nil => rfl
  | cons x r => simp [List.takeWhile_cons, hl x r rfl]

theorem stoi_of_empty_subject (s : Str) (h : (subject s).2.isEmpty = true) :
    stoi s = Except.error ConvError.invalid_argument := by
  unfold stoi strtol
  simp only [h, if_true]

theorem stoi_no_numeral (s : Str) (hsp : startsWithSpace s = false)
    (h : NoNumeralStart s) : stoi s = Except.error ConvError.invalid_argument := by
  apply stoi_of_empty_subject
  cases s with
  | nil => rfl
  | cons ch r =>
    have hs : isspace ch = false := by simpa [startsWithSpace] using hsp
    simp only [subject, List.dropWhile_cons, hs, takeSign, Bool.false_eq_true, if_false]
    by_cases h1 : ch = '-'
    · subst h1
      simp only [if_true]
      apply takeWhile_isdigit_isEmpty
      intro x r1 hr
      by_contra hx
      have hx1 : isdigit x = true := by simpa using hx
      have := h ['-', x] r1 (by simp [hr])
      simp [numeralValue, hx1] at this
    · by_cases h2 : ch = '+'
      · subst h2
        simp only [h1, if_false, if_true]
        apply takeWhile_isdigit_isEmpty
        intro x r1 hr
        by_contra hx
        have hx1 : isdigit x = true := by simpa using hx
        have := h ['+', x] r1 (by simp [hr])
        simp [numeralValue, hx1] at this
      · simp only [h1, h2, if_false]
        apply takeWhile_isdigit_isEmpty
        intro x r1 hr
        by_contra hx
        have hx1 : isdigit x = true := by simpa using hx
        simp only [List.cons.injEq] at hr
        obtain ⟨hr1, hr2⟩ := hr
        subst hr1
        have := h [ch] r (by simp)
        simp [numeralValue, hx1, h1, h2] at this

theorem noNumeralStart_of_head (ch : Char) (r : Str) (h1 : ch ≠ '-') (h2 : ch ≠ '+')
    (h3 : isdigit ch = false) : NoNumeralStart (ch :: r) := by
  intro p rest hp
  cases p with
  | nil => rfl
  | cons x xs =>
    simp only [List.cons_append, List.cons.injEq] at hp
    obtain ⟨hx, _⟩ := hp
    subst hx
    simp [numeralValue, h1, h2, h3]

theorem construct_value_no_leading_space (file : Option FileData) (d c : Char) (dbg : Bool)
    (k v : Str) (h : (ConfigParser.construct file d c dbg).values.find k = some v) :
    startsWithSpace v = false := by
  cases file with
  | none => simp [ConfigParser.construct, StrMap.find] at h
  | some f =>
    obtain ⟨ls, e⟩ := f
    rw [construct_some] at h
    rcases foldl_addLine_mem d c ls [] (k, v) (find_mem _ k v h) with h0 | ⟨l, _, hl⟩
    · simp at h0
    · exact (referenceParse_value d c l k v hl).2.1

/-! ## Closed forms of the typed getters -/

theorem flagUnlessOptional_idem (cp : ConfigParser) (o : Bool) :
    (cp.flagUnlessOptional o).flagUnlessOptional o = cp.flagUnlessOptional o := by
  cases o <;> rfl

theorem flagUnlessOptional_hasErrors (cp : ConfigParser) (o : Bool) :
    (cp.flagUnlessOptional o).hasErrors = (if o then cp.hasErrors else true) := by
  cases o <;> rfl

theorem getInt_eq (cp : ConfigParser) (key : Str) (o : Bool) :
    cp.getInt key o =
      match cp.values.find key with
      | some v =>
        (match stoi v with
        | Except.ok n => ((true, n), cp)
        | Except.error _ => ((false, -1), cp.flagUnlessOptional o))
      | none => ((false, -1), cp.flagUnlessOptional o) := by
  unfold ConfigParser.getInt ConfigParser.getString
  cases cp.values.find key with
  | none => simp only [Bool.false_eq_true, if_false, flagUnlessOptional_idem]
  | some v => simp only [if_true]

theorem getUInt_eq (cp : ConfigParser) (key : Str) (o : Bool) :
    cp.getUInt key o =
      match cp.values.find key with
      | some v =>
        (match stoul v with
        | Except.ok n => ((true, n % 2 ^ 32), cp)
        | Except.error _ => ((false, 0), cp.flagUnlessOptional o))
      | none => ((false, 0), cp.flagUnlessOptional o) := by
  unfold ConfigParser.getUInt ConfigParser.getString
  cases cp.values.find key with
  | none => simp only [Bool.false_eq_true, if_false, flagUnlessOptional_idem]
  | some v => simp only [if_true]

theorem getLong_eq (cp : ConfigParser) (key : Str) (o : Bool) :
    cp.getLong key o =
      match cp.values.find key with
      | some v =>
        (match stol v with
        | Except.ok n => ((true, n), cp)
        | Except.error _ => ((false, 0), cp.flagUnlessOptional o))
      | none => ((false, 0), cp.flagUnlessOptional o) := by
  unfold ConfigParser.getLong ConfigParser.getString
  cases cp.values.find key with
  | none => simp only [Bool.false_eq_true, if_false, flagUnlessOptional_idem]
  | some v => simp only [if_true]

theorem getFloat_eq (h : FloatHost) (cp : ConfigParser) (key : Str) (o : Bool) :
    ConfigParser.getFloat h cp key o =
      match cp.values.find key with
      | some v =>
        (match h.stof v with
        | some x => ((true, x), cp)
        | none => ((false, h.zero32), cp.flagUnlessOptional o))
      | none => ((false, h.zero32), cp.flagUnlessOptional o) := by
  unfold ConfigParser.getFloat ConfigParser.getString
  cases cp.values.find key with
  | none => simp only [Bool.false_eq_true, if_false, flagUnlessOptional_idem]
  | some v => simp only [if_true]

theorem getDouble_eq (h : FloatHost) (cp : ConfigParser) (key : Str) (o : Bool) :
    ConfigParser.getDouble h cp key o =
      match cp.values.find key with
      | some v =>
        (match h.stof v with
        | some x => ((true, h.toDouble x), cp)
        | none => ((false, h.zero64), cp.flagUnlessOptional o))
      | none => ((false, h.zero64), cp.flagUnlessOptional o) := by
  unfold ConfigParser.getDouble ConfigParser.getString
  cases cp.values.find key with
  | none => simp only [Bool.false_eq_true, if_false, flagUnlessOptional_idem]
  | some v => simp only [if_true]

theorem takeWhile_isdigit_append (ds suffix : Str) (h : ds.all isdigit = true)
    (hs : ∀ x r, suffix = x :: r → isdigit x = false) :
    (ds ++ suffix).takeWhile isdigit = ds := by
  induction ds with
  | nil =>
    cases suffix with
    | nil => rfl
    | cons x r => simp [List.takeWhile_cons, hs x r rfl]
  | cons d ds ih =>
    simp only [List.all_cons, Bool.and_eq_true] at h
    simp only [List.cons_append, List.takeWhile_cons, h.1, if_true, ih h.2]

theorem subject_minus_suffix (r suffix : Str) (h : r.all isdigit = true)
    (hs : ∀ x t, suffix = x :: t → isdigit x = false) :
    subject ('-' :: (r ++ suffix)) = (true, r) := by
  have hsp : isspace '-' = false := by decide
  simp only [subject, List.dropWhile_cons, hsp, takeSign, if_true,
    takeWhile_isdigit_append r suffix h hs, Bool.false_eq_true, if_false]

theorem subject_plus_suffix (r suffix : Str) (h : r.all isdigit = true)
    (hs : ∀ x t, suffix = x :: t → isdigit x = false) :
    subject ('+' :: (r ++ suffix)) = (false, r) := by
  have hsp : isspace '+' = false := by decide
  have hm : ¬ ('+' = '-') := by decide
  simp only [subject, List.dropWhile_cons, hsp, takeSign, hm, if_true, if_false,
    takeWhile_isdigit_append r suffix h hs, Bool.false_eq_true]

theorem subject_digits_suffix (ch : Char) (r suffix : Str)
    (h : (ch :: r).all isdigit = true)
    (hs : ∀ x t, suffix = x :: t → isdigit x = false) :
    subject (ch :: (r ++ suffix)) = (false, ch :: r) := by
  have hd : isdigit ch = true := by
    simp only [List.all_cons, Bool.and_eq_true] at h; exact h.1
  have ht := takeWhile_isdigit_append (ch :: r) suffix h hs
  simp only [List.cons_append] at ht
  simp only [subject, List.dropWhile_cons, isdigit_not_isspace ch hd, takeSign,
    isdigit_ne_minus ch hd, isdigit_ne_plus ch hd, if_false, ht, Bool.false_eq_true]

/-- The subject sequence of a numeral followed by a text that does not start
with a digit: the sign of the numeral and its digits. -/
theorem subject_numeral_suffix (p suffix : Str) (n : Int) (h : numeralValue p = some n)
    (hs : ∀ x t, suffix = x :: t → isdigit x = false) :
    ∃ (neg : Bool) (ds : Str), subject (p ++ suffix) = (neg, ds) ∧ ds ≠ [] ∧
      n = (if neg then -(decimalValue ds : Int) else (decimalValue ds : Int)) := by
  cases p with
  | nil => simp [numeralValue] at h
  | cons ch r =>
    simp only [numeralValue] at h
    split_ifs at h with h1 h2 h3 h4 h5
    · subst h1
      simp only [Option.some.injEq] at h
      exact ⟨true, r, subject_minus_suffix r suffix h2.2 hs, h2.1, by simp [← h]⟩
    · subst h3
      simp only [Option.some.injEq] at h
      exact ⟨false, r, subject_plus_suffix r suffix h4.2 hs, h4.1, by simp [← h]⟩
    · simp only [Option.some.injEq] at h
      exact ⟨false, ch :: r, subject_digits_suffix ch r suffix h5 hs, by simp, by simp [← h]⟩

theorem stoi_numeral_suffix (p suffix : Str) (n : Int) (h : numeralValue p = some n)
    (hs : ∀ x t, suffix = x :: t → isdigit x = false)
    (hlo : INT_MIN ≤ n) (hhi : n ≤ INT_MAX) : stoi (p ++ suffix) = Except.ok n := by
  obtain ⟨neg, ds, hsub, hne, hn⟩ := subject_numeral_suffix p suffix n h hs
  exact stoi_of_subject _ ds neg hsub hne n hn hlo hhi

theorem flagUnlessOptional_cases (cp : ConfigParser) (o : Bool) :
    cp.flagUnlessOptional o = cp ∨ cp.flagUnlessOptional o = { cp with errorFlag := true } := by
  cases o
  · exact Or.inr rfl
  · exact Or.inl rfl

theorem after_cases (h : FloatHost) (cp : ConfigParser) (call : Call h) :
    Call.after h cp call = cp ∨ Call.after h cp call = { cp with errorFlag := true } := by
  cases call with
  | getString key o =>
    simp only [Call.after, ConfigParser.getString]
    cases cp.values.find key with
    | none => exact flagUnlessOptional_cases cp o
    | some v => exact Or.inl rfl
  | getString_fallback key fb => exact Or.inl (getString_fallback_state cp key fb)
  | getInt key o =>
    simp only [Call.after, getInt_eq]
    cases cp.values.find key with
    | none => exact flagUnlessOptional_cases cp o
    | some v =>
      dsimp only
      cases stoi v with
      | ok n => exact Or.inl rfl
      | error e => exact flagUnlessOptional_cases cp o
  | getInt_fallback key fb => exact Or.inl (getInt_fallback_state cp key fb)
  | getUInt key o =>
    simp only [Call.after, getUInt_eq]
    cases cp.values.find key with
    | none => exact flagUnlessOptional_cases cp o
    | some v =>
      dsimp only
      cases stoul v with
      | ok n => exact Or.inl rfl
      | error e => exact flagUnlessOptional_cases cp o
  | getUInt_fallback key fb => exact Or.inl (getUInt_fallback_state cp key fb)
  | getLong key o =>
    simp only [Call.after, getLong_eq]
    cases cp.values.find key with
    | none => exact flagUnlessOptional_cases cp o
    | some v =>
      dsimp only
      cases stol v with
      | ok n => exact Or.inl rfl
      | error e => exact flagUnlessOptional_cases cp o
  | getLong_fallback key fb => exact Or.inl (getLong_fallback_state cp key fb)
  | getFloat key o =>
    simp only [Call.after, getFloat_eq]
    cases cp.values.find key with
    | none => exact flagUnlessOptional_cases cp o
    | some v =>
      dsimp only
      cases h.stof v with
      | some x => exact Or.inl rfl
      | none => exact flagUnlessOptional_cases cp o
  | getFloat_fallback key fb => exact Or.inl (getFloat_fallback_state h cp key fb)
  | getDouble key o =>
    simp only [Call.after, getDouble_eq]
    cases cp.values.find key with
    | none => exact flagUnlessOptional_cases cp o
    | some v =>
      dsimp only
      cases h.stof v with
      | some x => exact Or.inl rfl
      | none => exact flagUnlessOptional_cases cp o
  | getDouble_fallback key fb => exact Or.inl (getDouble_fallback_state h cp key fb)
  | getMap => exact Or.inl rfl
  | hasErrors => exact Or.inl rfl

theorem after_values (h : FloatHost) (cp : ConfigParser) (call : Call h) :
    (Call.after h cp call).values = cp.values := by
  rcases after_cases h cp call with e | e <;> rw [e]

theorem stoul_of_subject (s ds : Str) (neg : Bool) (hs : subject s = (neg, ds))
    (hne : ds ≠ []) (hle : decimalValue ds ≤ ULONG_MAX) :
    stoul s = Except.ok
      (if neg then (ULONG_MAX + 1 - decimalValue ds) % (ULONG_MAX + 1) else decimalValue ds) := by
  have he : ds.isEmpty = false := by
    cases ds with
    | nil => exact absurd rfl hne
    | cons _ _ => rfl
  have hnot : ¬ ULONG_MAX < decimalValue ds := Nat.not_lt.2 hle
  unfold stoul strtoul
  simp only [hs, he, Bool.false_eq_true, if_false, digitsValue_eq_decimalValue, hnot]
  cases neg <;> simp

theorem stoi_of_subject_out_of_range (s ds : Str) (neg : Bool) (hs : subject s = (neg, ds))
    (hne : ds ≠ []) (n : Int)
    (hn : n = if neg then -(decimalValue ds : Int) else (decimalValue ds : Int))
    (hout : n < INT_MIN ∨ INT_MAX < n) : stoi s = Except.error ConvError.out_of_range := by
  have he : ds.isEmpty = false := by
    cases ds with
    | nil => exact absurd rfl hne
    | cons _ _ => rfl
  unfold stoi strtol
  simp only [hs, he, Bool.false_eq_true, if_false, digitsValue_eq_decimalValue, ← hn]
  by_cases h1 : n < LONG_MIN
  · simp [h1]
  · by_cases h2 : LONG_MAX < n
    · simp [h1, h2]
    · simp only [h1, h2, if_false]
      rcases hout with h | h <;> simp [h]

theorem subject_numeral (p : Str) (n : Int) (h : numeralValue p = some n) :
    ∃ (neg : Bool) (ds : Str), subject p = (neg, ds) ∧ ds ≠ [] ∧
      n = (if neg then -(decimalValue ds : Int) else (decimalValue ds : Int)) := by
  have := subject_numeral_suffix p [] n h (fun x t e => by cases e)
  simpa using this

theorem stoul_numeral (v : Str) (n : Int) (h : numeralValue v = some n)
    (h0 : 0 ≤ n) (h1 : n < 2 ^ 64) : stoul v = Except.ok n.toNat := by
  obtain ⟨neg, ds, hsub, hne, hn⟩ := subject_numeral v n h
  cases neg with
  | true =>
    simp only [if_true] at hn
    have hz : decimalValue ds = 0 := by omega
    rw [stoul_of_subject v ds true hsub hne (by rw [hz]; decide)]
    simp only [if_true, hz]
    have : n = 0 := by omega
    subst this
    decide
  | false =>
    simp only [Bool.false_eq_true, if_false] at hn
    have hle : decimalValue ds ≤ ULONG_MAX := by unfold ULONG_MAX; omega
    rw [stoul_of_subject v ds false hsub hne hle]
    simp only [Bool.false_eq_true, if_false, hn, Int.toNat_ofNat]

theorem stoi_numeral_out_of_range (v : Str) (n : Int) (h : numeralValue v = some n)
    (hout : n < INT_MIN ∨ INT_MAX < n) : stoi v = Except.error ConvError.out_of_range := by
  obtain ⟨neg, ds, hsub, hne, hn⟩ := subject_numeral v n h
  exact stoi_of_subject_out_of_range v ds neg hsub hne n hn hout

theorem stripTrailing_prefix (t : Str) : ∃ r, stripTrailing t ++ r = t :=
  List.rdropWhile_prefix isspace t

theorem stripTrailing_endsWithSpace (t : Str) (h : stripTrailing t ≠ []) :
    endsWithSpace (stripTrailing t) = false := by
  unfold endsWithSpace
  rw [List.getLast?_eq_getLast _ h]
  have := List.rdropWhile_last_not isspace t h
  simpa using this

theorem stripTrailing_mem (t : Str) (x : Char) (h : x ∈ stripTrailing t) : x ∈ t := by
  obtain ⟨r, hr⟩ := stripTrailing_prefix t
  rw [← hr]
  exact List.mem_append_left _ h

theorem not_mem_takeWhile_ne (l : Str) (d : Char) : d ∉ l.takeWhile (· != d) := by
  intro h
  have := List.mem_takeWhile_imp h
  simp at this

theorem referenceParse_key (d c : Char) (l k v : Str)
    (h : referenceParse l d c = some (k, v)) :
    k ≠ [] ∧ startsWithSpace k = false ∧ endsWithSpace k = false ∧ d ∉ k ∧ c ∉ k ∧ c ∉ v := by
  obtain ⟨hk, hv, hl, _, _, hkne, hck, _⟩ := referenceParse_some l d c k v h
  refine ⟨hkne, ?_, ?_, ?_, hck, ?_⟩
  · obtain ⟨r, hr⟩ := stripTrailing_prefix (keySegment (stripLeading l) d)
    rw [← hk] at hr
    cases hkc : k with
    | nil => exact absurd hkc hkne
    | cons x xs =>
      rw [hkc] at hr
      have hpre : ∃ t, stripLeading l = x :: t := by
        have hseg := List.takeWhile_prefix (fun ch => ch != d) (l := stripLeading l)
        obtain ⟨t, ht⟩ := hseg
        refine ⟨xs ++ r ++ t, ?_⟩
        rw [← ht]
        unfold keySegment at hr
        rw [← hr]
        simp
      obtain ⟨t, ht⟩ := hpre
      have := dropWhile_isspace_head l x t ht
      simp [startsWithSpace, this]
  · rw [hk]
    exact stripTrailing_endsWithSpace _ (hk ▸ hkne)
  · intro hd
    rw [hk] at hd
    exact not_mem_takeWhile_ne _ d (stripTrailing_mem _ d hd)
  · intro hc
    rw [hv] at hc
    have h1 := stripTrailing_mem _ c hc
    have h2 : c ∈ valueSegment (stripLeading l) d c :=
      (List.dropWhile_sublist _).subset h1
    exact not_mem_takeWhile_ne _ c h2

theorem construct_mem (file : Option FileData) (d c : Char) (dbg : Bool) (k v : Str)
    (h : (k, v) ∈ (ConfigParser.construct file d c dbg).values) :
    ∃ l, referenceParse l d c = some (k, v) := by
  cases file with
  | none => simp [ConfigParser.construct] at h
  | some f =>
    obtain ⟨ls, e⟩ := f
    rw [construct_some] at h
    rcases foldl_addLine_mem d c ls [] (k, v) h with h0 | ⟨l, _, hl⟩
    · simp at h0
    · exact ⟨l, hl⟩

theorem stripTrailing_rest (s : Str) :
    ∃ r : Str, stripTrailing s ++ r = s ∧ r.all isspace = true := by
  refine ⟨(s.reverse.takeWhile isspace).reverse, ?_, ?_⟩
  · unfold stripTrailing
    rw [← List.reverse_append, List.takeWhile_append_dropWhile, List.reverse_reverse]
  · rw [List.all_eq_true]
    intro x hx
    exact List.mem_takeWhile_imp (List.mem_reverse.1 hx)

theorem stripTrailing_not_endsWithSpace (s : Str) : endsWithSpace (stripTrailing s) = false := by
  by_cases h : stripTrailing s = []
  · rw [h]; rfl
  · exact stripTrailing_endsWithSpace s h

theorem keySegment_stripLeading_blank (line : Str) (d : Char)
    (h : (keySegment (stripLeading line) d).all isspace = true) :
    keySegment (stripLeading line) d = [] := by
  cases hl : stripLeading line with
  | nil => rfl
  | cons x xs =>
    rw [hl] at h
    exact keySegment_all_isspace x xs d (dropWhile_isspace_head line x xs hl) h

theorem ltrim_blank (s : Str) (h : (ltrim s whitespace).all isspace = true) :
    ltrim s whitespace = [] := by
  rw [ltrim_eq_dropWhile] at h ⊢
  cases hd : s.dropWhile isspace with
  | nil => rfl
  | cons x xs =>
    rw [hd] at h
    have := dropWhile_isspace_head s x xs hd
    simp [this] at h

/-! ## Construction: claims on the parse of the file -/

/-- C1: for every line, delimiter and comment character, and whatever the locals
`key` and `value` still hold from earlier lines, the per-line step of the
constructor reaches `emplace` exactly when the reference definition of the
specification gives an entry, and then with exactly that trimmed key and trimmed
value; the constructor on an opened file feeds these entries, line after line,
to the mapping. -/
theorem perLine_parse_eq_reference (line key0 value0 : Str) (d c : Char) :
    (lineStep d c ⟨line, key0, value0⟩).2 = referenceParse line d c ∧
    (lineStep d c ⟨line, key0, value0⟩).2 =
      (if stripLeading line ≠ [] ∧ (stripLeading line).head? ≠ some c ∧
          d ∈ stripLeading line ∧
          stripTrailing (keySegment (stripLeading line) d) ≠ [] ∧
          c ∉ stripTrailing (keySegment (stripLeading line) d) ∧
          stripTrailing (stripLeading (valueSegment (stripLeading line) d c)) ≠ [] then
        some (stripTrailing (keySegment (stripLeading line) d),
          stripTrailing (stripLeading (valueSegment (stripLeading line) d c)))
      else none) ∧
    (∀ (ls : List Str) (e : ReadEnd) (dbg : Bool),
      ConfigParser.construct (some ⟨ls, e⟩) d c dbg =
        ⟨dbg, false, ls.foldl (fun m l =>
          match (lineStep d c ⟨l, key0, value0⟩).2 with
          | some (k, v) => (m.emplace k v).1
          | none => m) []⟩) := by
  refine ⟨lineStep_entry d c _, ?_, ?_⟩
  · rw [lineStep_entry]; rfl
  · intro ls e dbg
    rw [construct_some]
    simp only [lineStep_entry]
    rfl

/-- C2: when a line parses to an entry `(k, v1)`, no line before it parses to
the key `k`, and a later line parses to `(k, v2)`, the mapping after
construction holds `k -> v1`; and in any case the later duplicate changes
nothing: the store, so also `hasErrors()`, is the one built from the file
without that line. -/
theorem first_occurrence_wins (pre mid post : List Str) (l1 l2 k v1 v2 : Str)
    (e : ReadEnd) (d c : Char) (dbg : Bool)
    (h1 : referenceParse l1 d c = some (k, v1))
    (h2 : referenceParse l2 d c = some (k, v2)) :
    ((∀ l ∈ pre, ∀ v, referenceParse l d c ≠ some (k, v)) →
      (ConfigParser.construct (some ⟨pre ++ l1 :: (mid ++ l2 :: post), e⟩) d c dbg).getMap.find k
        = some v1) ∧
    (ConfigParser.construct (some ⟨pre ++ l1 :: (mid ++ l2 :: post), e⟩) d c dbg).hasErrors =
      (ConfigParser.construct (some ⟨pre ++ l1 :: (mid ++ post), e⟩) d c dbg).hasErrors ∧
    ConfigParser.construct (some ⟨pre ++ l1 :: (mid ++ l2 :: post), e⟩) d c dbg =
      ConfigParser.construct (some ⟨pre ++ l1 :: (mid ++ post), e⟩) d c dbg := by
  have hstore : ConfigParser.construct (some ⟨pre ++ l1 :: (mid ++ l2 :: post), e⟩) d c dbg =
      ConfigParser.construct (some ⟨pre ++ l1 :: (mid ++ post), e⟩) d c dbg := by
    simp only [construct_some, List.foldl_append, List.foldl_cons]
    congr 2
    generalize List.foldl (addLine d c) [] pre = m0
    have hk : ∃ w, (addLine d c m0 l1).find k = some w := by
      cases hm : m0.find k with
      | some w => exact ⟨w, addLine_find_kept d c m0 l1 k w hm⟩
      | none => exact ⟨v1, addLine_entry d c m0 l1 k v1 h1 hm⟩
    obtain ⟨w, hw⟩ := hk
    have hw2 := foldl_addLine_find_kept d c mid _ k w hw
    rw [addLine_present d c _ l2 k v2 w h2 hw2]
  refine ⟨?_, by rw [hstore], hstore⟩
  intro hfirst
  rw [construct_some]
  simp only [ConfigParser.getMap]
  rw [List.foldl_append, List.foldl_cons]
  apply foldl_addLine_find_kept
  apply addLine_entry d c _ l1 k v1 h1
  exact foldl_addLine_find_none d c k pre [] rfl hfirst

/-- Witness for C2 on the file `k=a`, `x=1`, `k=b`. -/
theorem first_occurrence_wins_witness :
    referenceParse "k=a".toList '=' '#' = some ("k".toList, "a".toList) ∧
    referenceParse "k=b".toList '=' '#' = some ("k".toList, "b".toList) ∧
    (ConfigParser.construct (some ⟨["k=a".toList, "x=1".toList, "k=b".toList], ReadEnd.eof⟩)
        '=' '#' false).getMap.find "k".toList = some "a".toList ∧
    ConfigParser.construct (some ⟨["k=a".toList, "x=1".toList, "k=b".toList], ReadEnd.eof⟩)
        '=' '#' false =
      ConfigParser.construct (some ⟨["k=a".toList, "x=1".toList], ReadEnd.eof⟩) '=' '#' false :=
  have h := first_occurrence_wins [] ["x=1".toList] [] "k=a".toList "k=b".toList "k".toList
    "a".toList "b".toList ReadEnd.eof '=' '#' false (by decide) (by decide)
  ⟨by decide, by decide, h.1 (by simp), h.2.2⟩

/-- C3: for every file that opens and every line of it whose reference parse is
an entry `(k, v)` (a well-formed line with non-empty trimmed key and value),
`getMap()` after construction has exactly one entry with key `k`, a lookup of
`k` finds a value, and that value is `v` when no earlier line parses to the key
`k`. -/
theorem wellFormed_line_stored_once (pre post : List Str) (line k v : Str) (e : ReadEnd)
    (d c : Char) (dbg : Bool) (h : referenceParse line d c = some (k, v)) :
    (ConfigParser.construct (some ⟨pre ++ line :: post, e⟩) d c dbg).getMap.keyCount k = 1 ∧
    (∃ w, (ConfigParser.construct (some ⟨pre ++ line :: post, e⟩) d c dbg).getMap.find k
      = some w) ∧
    ((∀ l ∈ pre, ∀ w, referenceParse l d c ≠ some (k, w)) →
      (ConfigParser.construct (some ⟨pre ++ line :: post, e⟩) d c dbg).getMap.find k = some v ∧
      (k, v) ∈ (ConfigParser.construct (some ⟨pre ++ line :: post, e⟩) d c dbg).getMap) := by
  rw [construct_some]
  simp only [ConfigParser.getMap]
  have hnd := foldl_addLine_nodup d c (pre ++ line :: post) [] List.nodup_nil
  rw [List.foldl_append, List.foldl_cons] at hnd ⊢
  have hfound : ∃ w, (List.foldl (addLine d c)
      (addLine d c (List.foldl (addLine d c) [] pre) line) post).find k = some w := by
    cases hm : (List.foldl (addLine d c) [] pre).find k with
    | some w =>
      exact ⟨w, foldl_addLine_find_kept d c post _ k w (addLine_find_kept d c _ line k w hm)⟩
    | none =>
      exact ⟨v, foldl_addLine_find_kept d c post _ k v (addLine_entry d c _ line k v h hm)⟩
  refine ⟨?_, hfound, ?_⟩
  · exact keyCount_eq_one _ k hnd ((find_isSome_iff _ k).1 hfound)
  · intro hfirst
    have hv := foldl_addLine_find_kept d c post _ k v
      (addLine_entry d c _ line k v h (foldl_addLine_find_none d c k pre [] rfl hfirst))
    exact ⟨hv, find_mem _ k v hv⟩

/-- Witness for C3 on the file `a = 1`, `b=2 # two`, `a=3`, at its second line. -/
theorem wellFormed_line_stored_once_witness :
    referenceParse "b=2 # two".toList '=' '#' = some ("b".toList, "2".toList) ∧
    (ConfigParser.construct
      (some ⟨["a = 1".toList, "b=2 # two".toList, "a=3".toList], ReadEnd.eof⟩)
      '=' '#' false).getMap.keyCount "b".toList = 1 ∧
    (ConfigParser.construct
      (some ⟨["a = 1".toList, "b=2 # two".toList, "a=3".toList], ReadEnd.eof⟩)
      '=' '#' false).getMap.find "b".toList = some "2".toList :=
  have h := wellFormed_line_stored_once ["a = 1".toList] ["a=3".toList] "b=2 # two".toList
    "b".toList "2".toList ReadEnd.eof '=' '#' false (by decide)
  ⟨by decide, h.1, (h.2.2 (fun l hl w => by
    rw [List.mem_singleton] at hl
    subst hl
    rw [show referenceParse "a = 1".toList '=' '#' = some ("a".toList, "1".toList) by decide]
    simp)).1⟩

/-- C4: a line that does not contain the delimiter is ignored entirely: the
loop body reaches no `emplace` for it, whatever the locals hold from earlier
lines, and the store built from a file with that line at any position has the
same mapping and the same error flag as the store built without it. -/
theorem line_without_delimiter_ignored (pre post : List Str) (line : Str) (e : ReadEnd)
    (d c : Char) (dbg : Bool) (h : d ∉ line) :
    (∀ key0 value0 : Str, (lineStep d c ⟨line, key0, value0⟩).2 = none) ∧
    (ConfigParser.construct (some ⟨pre ++ line :: post, e⟩) d c dbg).getMap =
      (ConfigParser.construct (some ⟨pre ++ post, e⟩) d c dbg).getMap ∧
    (ConfigParser.construct (some ⟨pre ++ line :: post, e⟩) d c dbg).hasErrors =
      (ConfigParser.construct (some ⟨pre ++ post, e⟩) d c dbg).hasErrors := by
  have hp : referenceParse line d c = none := by
    unfold referenceParse
    have hd : d ∉ stripLeading line := fun hm => h ((List.dropWhile_sublist _).subset hm)
    simp [hd]
  refine ⟨fun key0 value0 => by rw [lineStep_entry, hp], ?_, ?_⟩
  · simp only [construct_some, ConfigParser.getMap, foldl_addLine_skip d c pre post line [] hp]
  · simp only [construct_some, ConfigParser.hasErrors]

/-- Witness for C4: the line `nodelim` between `a=1` and `b=2`. -/
theorem line_without_delimiter_ignored_witness :
    '=' ∉ "nodelim".toList ∧
    (ConfigParser.construct
      (some ⟨["a=1".toList, "nodelim".toList, "b=2".toList], ReadEnd.eof⟩) '=' '#' false).getMap =
    (ConfigParser.construct
      (some ⟨["a=1".toList, "b=2".toList], ReadEnd.eof⟩) '=' '#' false).getMap :=
  ⟨by decide, (line_without_delimiter_ignored ["a=1".toList] ["b=2".toList] "nodelim".toList
    ReadEnd.eof '=' '#' false (by decide)).2.1⟩

/-- C5: a line that is empty after removal of leading white space, or whose
first character after that removal is the comment character, is inert: at any
position of the file it changes neither the mapping nor the error flag that
construction produces. -/
theorem blank_or_comment_line_inert (pre post : List Str) (line : Str) (e : ReadEnd)
    (d c : Char) (dbg : Bool)
    (h : stripLeading line = [] ∨ (stripLeading line).head? = some c) :
    (ConfigParser.construct (some ⟨pre ++ line :: post, e⟩) d c dbg).getMap =
      (ConfigParser.construct (some ⟨pre ++ post, e⟩) d c dbg).getMap ∧
    (ConfigParser.construct (some ⟨pre ++ line :: post, e⟩) d c dbg).hasErrors =
      (ConfigParser.construct (some ⟨pre ++ post, e⟩) d c dbg).hasErrors ∧
    (ConfigParser.construct (some ⟨pre ++ line :: post, e⟩) d c dbg).hasErrors = false := by
  have hp : referenceParse line d c = none := by
    unfold referenceParse
    rcases h with h | h <;> simp [h]
  refine ⟨?_, ?_, ?_⟩
  · simp only [construct_some, ConfigParser.getMap, foldl_addLine_skip d c pre post line [] hp]
  · simp only [construct_some, ConfigParser.hasErrors]
  · simp only [construct_some, ConfigParser.hasErrors]

/-- Witness for C5: the comment line `  # note` between `a=1` and `b=2`. -/
theorem blank_or_comment_line_inert_witness :
    (stripLeading "  # note".toList).head? = some '#' ∧
    (ConfigParser.construct
      (some ⟨["a=1".toList, "  # note".toList, "b=2".toList], ReadEnd.eof⟩) '=' '#' false).getMap =
    (ConfigParser.construct
      (some ⟨["a=1".toList, "b=2".toList], ReadEnd.eof⟩) '=' '#' false).getMap :=
  ⟨by decide, (blank_or_comment_line_inert ["a=1".toList] ["b=2".toList] "  # note".toList
    ReadEnd.eof '=' '#' false (Or.inr (by decide))).1⟩

/-- C6: every value in the mapping after construction is non-empty and neither
starts nor ends with a white-space character; and a line whose value segment
trims to the empty string reaches no `emplace` and, at any position of the
file, leaves the constructed store as it is without the line. -/
theorem stored_values_trimmed_nonempty (file : Option FileData) (d c : Char) (dbg : Bool) :
    (∀ k v : Str, (k, v) ∈ (ConfigParser.construct file d c dbg).getMap →
      v ≠ [] ∧ startsWithSpace v = false ∧ endsWithSpace v = false) ∧
    (∀ k v : Str, (ConfigParser.construct file d c dbg).getMap.find k = some v →
      v ≠ [] ∧ startsWithSpace v = false ∧ endsWithSpace v = false) ∧
    (∀ line : Str, stripTrailing (stripLeading (valueSegment (stripLeading line) d c)) = [] →
      (∀ key0 value0 : Str, (lineStep d c ⟨line, key0, value0⟩).2 = none) ∧
      (∀ (pre post : List Str) (e : ReadEnd),
        ConfigParser.construct (some ⟨pre ++ line :: post, e⟩) d c dbg =
          ConfigParser.construct (some ⟨pre ++ post, e⟩) d c dbg)) := by
  have hmem : ∀ k v : Str, (k, v) ∈ (ConfigParser.construct file d c dbg).getMap →
      v ≠ [] ∧ startsWithSpace v = false ∧ endsWithSpace v = false := by
    intro k v hkv
    cases file with
    | none => simp [ConfigParser.construct, ConfigParser.getMap] at hkv
    | some f =>
      obtain ⟨ls, e⟩ := f
      rw [construct_some] at hkv
      rcases foldl_addLine_mem d c ls [] (k, v) hkv with h0 | ⟨l, _, hl⟩
      · simp at h0
      · exact referenceParse_value d c l k v hl
  refine ⟨hmem, fun k v h => hmem k v (find_mem _ k v h), ?_⟩
  intro line hline
  have hp : referenceParse line d c = none := by
    unfold referenceParse
    simp [hline]
  refine ⟨fun key0 value0 => by rw [lineStep_entry, hp], ?_⟩
  intro pre post e
  simp only [construct_some, foldl_addLine_skip d c pre post line [] hp]

/-- Witness for C6: the file `a= x y `, `key=`, `key=   `, `key=#c` stores the
value `x y` and nothing for `key`. -/
theorem stored_values_trimmed_nonempty_witness :
    (ConfigParser.construct (some ⟨["a= x y ".toList, "key=".toList, "key=   ".toList,
      "key=#c".toList], ReadEnd.eof⟩) '=' '#' false).getMap.find "a".toList
      = some "x y".toList ∧
    ("x y".toList ≠ [] ∧ startsWithSpace "x y".toList = false ∧
      endsWithSpace "x y".toList = false) ∧
    ConfigParser.construct (some ⟨["a= x y ".toList, "key=".toList], ReadEnd.eof⟩) '=' '#' false =
      ConfigParser.construct (some ⟨["a= x y ".toList], ReadEnd.eof⟩) '=' '#' false ∧
    ConfigParser.construct (some ⟨["a= x y ".toList, "key=   ".toList], ReadEnd.eof⟩) '=' '#'
        false =
      ConfigParser.construct (some ⟨["a= x y ".toList], ReadEnd.eof⟩) '=' '#' false ∧
    ConfigParser.construct (some ⟨["a= x y ".toList, "key=#c".toList], ReadEnd.eof⟩) '=' '#'
        false =
      ConfigParser.construct (some ⟨["a= x y ".toList], ReadEnd.eof⟩) '=' '#' false :=
  have h := stored_values_trimmed_nonempty (some ⟨["a= x y ".toList, "key=".toList,
    "key=   ".toList, "key=#c".toList], ReadEnd.eof⟩) '=' '#' false
  have g := (stored_values_trimmed_nonempty none '=' '#' false).2.2
  ⟨by decide, h.2.1 "a".toList "x y".toList (by decide),
    ((g "key=".toList (by decide)).2 ["a= x y ".toList] [] ReadEnd.eof),
    ((g "key=   ".toList (by decide)).2 ["a= x y ".toList] [] ReadEnd.eof),
    ((g "key=#c".toList (by decide)).2 ["a= x y ".toList] [] ReadEnd.eof)⟩

/-! ## The getters: claims on lookups, fallbacks and the error flag -/

/-- C7: the error flag is monotonic: when `hasErrors()` is true, it is true
after any one public call (every getter in required, optional and fallback
form, `getMap`, `hasErrors`) with any arguments, and so after any sequence of
such calls. -/
theorem errorFlag_never_cleared (h : FloatHost) (cp : ConfigParser)
    (hpre : cp.hasErrors = true) :
    (∀ call : Call h, (Call.after h cp call).hasErrors = true) ∧
    (∀ calls : List (Call h), (runCalls h cp calls).hasErrors = true) := by
  refine ⟨fun call => after_flag h cp call hpre, ?_⟩
  intro calls
  unfold runCalls
  induction calls generalizing cp with
  | nil => exact hpre
  | cons call calls ih => exact ih (Call.after h cp call) (after_flag h cp call hpre)

/-- Witness for C7: a store whose flag was set by a required lookup of a missing
key keeps it through found, optional and fallback lookups. -/
theorem errorFlag_never_cleared_witness :
    ((ConfigParser.construct (some ⟨["n=42".toList], ReadEnd.eof⟩) '=' '#' false).getString
      "missing".toList false).2.hasErrors = true ∧
    (runCalls noFloatHost
      ((ConfigParser.construct (some ⟨["n=42".toList], ReadEnd.eof⟩) '=' '#' false).getString
        "missing".toList false).2
      [Call.getInt "n".toList false, Call.getString "missing".toList true,
        Call.getFloat_fallback "n".toList (), Call.hasErrors]).hasErrors = true :=
  ⟨by decide, (errorFlag_never_cleared noFloatHost _ (by decide)).2 _⟩

/-- C8: `getString(key, optional)`: when the key is in the mapping the call
returns `(true, stored value)` and leaves the object, so the error flag, as it
was; when the key is absent it returns `(false, "")`, the error flag afterwards
is true if `optional` is false and unchanged if `optional` is true, and the
mapping is unchanged. -/
theorem getString_contract (cp : ConfigParser) (key : Str) (optional : Bool) :
    (∀ v, cp.getMap.find key = some v → cp.getString key optional = ((true, v), cp)) ∧
    (cp.getMap.find key = none →
      (cp.getString key optional).1 = (false, []) ∧
      (cp.getString key optional).2.hasErrors = (if optional then cp.hasErrors else true) ∧
      (cp.getString key optional).2.getMap = cp.getMap) := by
  unfold ConfigParser.getMap ConfigParser.hasErrors ConfigParser.getString
  constructor
  · intro v hv
    simp only [hv]
  · intro hn
    simp only [hn, flagUnlessOptional_values, flagUnlessOptional_flag, true_and]
    cases optional <;> simp

/-- Witness for C8 on the store of the file `bar=hello world`: the key `bar` is
found; the key `missing` is not, and only the required lookup sets the flag. -/
theorem getString_contract_witness :
    (ConfigParser.construct (some ⟨["bar=hello world".toList], ReadEnd.eof⟩) '=' '#'
      false).getString "bar".toList false =
      ((true, "hello world".toList),
        ConfigParser.construct (some ⟨["bar=hello world".toList], ReadEnd.eof⟩) '=' '#' false) ∧
    ((ConfigParser.construct (some ⟨["bar=hello world".toList], ReadEnd.eof⟩) '=' '#'
      false).getString "missing".toList false).1 = (false, []) ∧
    ((ConfigParser.construct (some ⟨["bar=hello world".toList], ReadEnd.eof⟩) '=' '#'
      false).getString "missing".toList false).2.hasErrors = true ∧
    ((ConfigParser.construct (some ⟨["bar=hello world".toList], ReadEnd.eof⟩) '=' '#'
      false).getString "missing".toList true).2.hasErrors = false :=
  have h := getString_contract
    (ConfigParser.construct (some ⟨["bar=hello world".toList], ReadEnd.eof⟩) '=' '#' false)
  ⟨(h "bar".toList false).1 "hello world".toList (by decide),
    ((h "missing".toList false).2 (by decide)).1,
    ((h "missing".toList false).2 (by decide)).2.1,
    ((h "missing".toList true).2 (by decide)).2.1⟩

/-- C9: each fallback getter returns the result of its optional form when that
form reports found, and `(false, fallback)` otherwise, that is when the key is
absent or, for the numeric getters, when the stored string fails to convert;
the call leaves the object, so the error flag, as it was.  In particular a
fallback lookup of a missing key `missing` with `fb` gives `(false, "fb")`. -/
theorem fallback_getters (h : FloatHost) (cp : ConfigParser) (key : Str) :
    (∀ fb : Str, cp.getString_fallback key fb =
      (if (cp.getString key true).1.1 then (cp.getString key true).1 else (false, fb), cp)) ∧
    (∀ fb : Int, cp.getInt_fallback key fb =
      (if (cp.getInt key true).1.1 then (cp.getInt key true).1 else (false, fb), cp)) ∧
    (∀ fb : Nat, cp.getUInt_fallback key fb =
      (if (cp.getUInt key true).1.1 then (cp.getUInt key true).1 else (false, fb), cp)) ∧
    (∀ fb : Int, cp.getLong_fallback key fb =
      (if (cp.getLong key true).1.1 then (cp.getLong key true).1 else (false, fb), cp)) ∧
    (∀ fb : h.F32, ConfigParser.getFloat_fallback h cp key fb =
      (if (ConfigParser.getFloat h cp key true).1.1 then (ConfigParser.getFloat h cp key true).1
        else (false, fb), cp)) ∧
    (∀ fb : h.F64, ConfigParser.getDouble_fallback h cp key fb =
      (if (ConfigParser.getDouble h cp key true).1.1 then
        (ConfigParser.getDouble h cp key true).1 else (false, fb), cp)) ∧
    (∀ fb : Str, (cp.getString_fallback key fb).1 =
      match cp.getMap.find key with
      | some v => (true, v)
      | none => (false, fb)) ∧
    (∀ fb : Int, (cp.getInt_fallback key fb).1 =
      match cp.getMap.find key with
      | some v =>
        (match stoi v with
        | Except.ok n => (true, n)
        | Except.error _ => (false, fb))
      | none => (false, fb)) ∧
    (∀ fb : Nat, (cp.getUInt_fallback key fb).1 =
      match cp.getMap.find key with
      | some v =>
        (match stoul v with
        | Except.ok n => (true, n % 2 ^ 32)
        | Except.error _ => (false, fb))
      | none => (false, fb)) ∧
    (∀ fb : Int, (cp.getLong_fallback key fb).1 =
      match cp.getMap.find key with
      | some v =>
        (match stol v with
        | Except.ok n => (true, n)
        | Except.error _ => (false, fb))
      | none => (false, fb)) ∧
    (∀ fb : h.F32, (ConfigParser.getFloat_fallback h cp key fb).1 =
      match cp.getMap.find key with
      | some v =>
        (match h.stof v with
        | some x => (true, x)
        | none => (false, fb))
      | none => (false, fb)) ∧
    (∀ fb : h.F64, (ConfigParser.getDouble_fallback h cp key fb).1 =
      match cp.getMap.find key with
      | some v =>
        (match h.stof v with
        | some x => (true, h.toDouble x)
        | none => (false, fb))
      | none => (false, fb)) ∧
    (cp.getMap.find "missing".toList = none →
      cp.getString_fallback "missing".toList "fb".toList = ((false, "fb".toList), cp)) := by
  refine ⟨?_, ?_, ?_, ?_, ?_, ?_, ?_, ?_, ?_, ?_, ?_, ?_, ?_⟩
  · intro fb
    refine Prod.ext ?_ (getString_fallback_state cp key fb)
    unfold ConfigParser.getString_fallback
    simp only
    split_ifs <;> rfl
  · intro fb
    refine Prod.ext ?_ (getInt_fallback_state cp key fb)
    unfold ConfigParser.getInt_fallback
    simp only
    split_ifs <;> rfl
  · intro fb
    refine Prod.ext ?_ (getUInt_fallback_state cp key fb)
    unfold ConfigParser.getUInt_fallback
    simp only
    split_ifs <;> rfl
  · intro fb
    refine Prod.ext ?_ (getLong_fallback_state cp key fb)
    unfold ConfigParser.getLong_fallback
    simp only
    split_ifs <;> rfl
  · intro fb
    refine Prod.ext ?_ (getFloat_fallback_state h cp key fb)
    unfold ConfigParser.getFloat_fallback
    simp only
    split_ifs <;> rfl
  · intro fb
    refine Prod.ext ?_ (getDouble_fallback_state h cp key fb)
    unfold ConfigParser.getDouble_fallback
    simp only
    split_ifs <;> rfl
  · intro fb
    unfold ConfigParser.getString_fallback ConfigParser.getString ConfigParser.getMap
    cases cp.values.find key <;> rfl
  · intro fb
    unfold ConfigParser.getInt_fallback ConfigParser.getInt ConfigParser.getString
      ConfigParser.getMap
    cases cp.values.find key with
    | none => rfl
    | some v => simp only [if_true]; cases stoi v <;> rfl
  · intro fb
    unfold ConfigParser.getUInt_fallback ConfigParser.getUInt ConfigParser.getString
      ConfigParser.getMap
    cases cp.values.find key with
    | none => rfl
    | some v => simp only [if_true]; cases stoul v <;> rfl
  · intro fb
    unfold ConfigParser.getLong_fallback ConfigParser.getLong ConfigParser.getString
      ConfigParser.getMap
    cases cp.values.find key with
    | none => rfl
    | some v => simp only [if_true]; cases stol v <;> rfl
  · intro fb
    unfold ConfigParser.getFloat_fallback ConfigParser.getFloat ConfigParser.getString
      ConfigParser.getMap
    cases cp.values.find key with
    | none => rfl
    | some v => simp only [if_true]; cases h.stof v <;> rfl
  · intro fb
    unfold ConfigParser.getDouble_fallback ConfigParser.getDouble ConfigParser.getString
      ConfigParser.getMap
    cases cp.values.find key with
    | none => rfl
    | some v => simp only [if_true]; cases h.stof v <;> rfl
  · intro hn
    refine Prod.ext ?_ (getString_fallback_state cp _ _)
    unfold ConfigParser.getMap at hn
    unfold ConfigParser.getString_fallback ConfigParser.getString
    simp only [hn]
    rfl

/-- Witness for C9 on the store of the file `n=42`, `s=abc`: the fallback
lookup of `missing` gives `(false, "fb")`, `getInt("s", 7)` gives `(false, 7)`,
`getInt("n", 7)` gives `(true, 42)`, and the flag stays clear. -/
theorem fallback_getters_witness :
    (ConfigParser.construct (some ⟨["n=42".toList, "s=abc".toList], ReadEnd.eof⟩) '=' '#'
      false).getString_fallback "missing".toList "fb".toList =
      ((false, "fb".toList),
        ConfigParser.construct (some ⟨["n=42".toList, "s=abc".toList], ReadEnd.eof⟩) '=' '#'
          false) ∧
    ((ConfigParser.construct (some ⟨["n=42".toList, "s=abc".toList], ReadEnd.eof⟩) '=' '#'
      false).getInt_fallback "s".toList 7) =
      ((false, 7),
        ConfigParser.construct (some ⟨["n=42".toList, "s=abc".toList], ReadEnd.eof⟩) '=' '#'
          false) ∧
    ((ConfigParser.construct (some ⟨["n=42".toList, "s=abc".toList], ReadEnd.eof⟩) '=' '#'
      false).getInt_fallback "n".toList 7).1 = (true, 42) :=
  have h := fallback_getters noFloatHost
    (ConfigParser.construct (some ⟨["n=42".toList, "s=abc".toList], ReadEnd.eof⟩) '=' '#' false)
  ⟨(h "k".toList).2.2.2.2.2.2.2.2.2.2.2.2 (by decide),
    ((h "s".toList).2.1 7).trans (by decide),
    ((h "n".toList).2.2.2.2.2.2.2.1 7).trans (by decide)⟩

/-- C10: `getInt` coercion.  When the stored value of the key is a base-10
numeral (optional sign, then digits) of an integer `n` in the range of `int`,
`getInt(key)` returns `(true, n)` and leaves the object, so the error flag, as
it was.  When the store holds the mapping of a constructed store and no initial
part of the stored value is a numeral, the required `getInt(key)` returns
`(false, -1)` and sets the error flag; the same holds for any store whose stored
value does not start with white space. -/
theorem getInt_coercion (cp : ConfigParser) (key v : Str)
    (hv : cp.getMap.find key = some v) :
    (∀ (n : Int) (optional : Bool), numeralValue v = some n → INT_MIN ≤ n → n ≤ INT_MAX →
      cp.getInt key optional = ((true, n), cp)) ∧
    (∀ (file : Option FileData) (d c : Char) (dbg : Bool),
      cp.getMap = (ConfigParser.construct file d c dbg).getMap → NoNumeralStart v →
      (cp.getInt key false).1 = (false, -1) ∧ (cp.getInt key false).2.hasErrors = true ∧
      (cp.getInt key false).2.getMap = cp.getMap) ∧
    (startsWithSpace v = false → NoNumeralStart v →
      (cp.getInt key false).1 = (false, -1) ∧ (cp.getInt key false).2.hasErrors = true ∧
      (cp.getInt key false).2.getMap = cp.getMap) := by
  unfold ConfigParser.getMap at hv
  have hfail : startsWithSpace v = false → NoNumeralStart v →
      (cp.getInt key false).1 = (false, -1) ∧ (cp.getInt key false).2.hasErrors = true ∧
      (cp.getInt key false).2.getMap = cp.getMap := by
    intro hsp hno
    unfold ConfigParser.getInt ConfigParser.getString
    simp only [hv, if_true, stoi_no_numeral v hsp hno]
    simp [ConfigParser.flagUnlessOptional, ConfigParser.hasErrors, ConfigParser.getMap]
  refine ⟨?_, ?_, hfail⟩
  · intro n optional hn hlo hhi
    unfold ConfigParser.getInt ConfigParser.getString
    simp only [hv, if_true, stoi_numeral v n hn hlo hhi]
  · intro file d c dbg hmap hno
    refine hfail ?_ hno
    unfold ConfigParser.getMap at hmap
    rw [hmap] at hv
    exact construct_value_no_leading_space file d c dbg key v hv

/-- Witness for C10 on the store of the file `n=42`, `s=abc`: `getInt("n")` is
`(true, 42)` with the flag clear, `getInt("s")` is `(false, -1)` with the flag
set. -/
theorem getInt_coercion_witness :
    (ConfigParser.construct (some ⟨["n=42".toList, "s=abc".toList], ReadEnd.eof⟩) '=' '#'
      false).getMap.find "n".toList = some "42".toList ∧
    numeralValue "42".toList = some 42 ∧
    (ConfigParser.construct (some ⟨["n=42".toList, "s=abc".toList], ReadEnd.eof⟩) '=' '#'
      false).getInt "n".toList false =
      ((true, 42),
        ConfigParser.construct (some ⟨["n=42".toList, "s=abc".toList], ReadEnd.eof⟩) '=' '#'
          false) ∧
    ((ConfigParser.construct (some ⟨["n=42".toList, "s=abc".toList], ReadEnd.eof⟩) '=' '#'
      false).getInt "n".toList false).2.hasErrors = false ∧
    (ConfigParser.construct (some ⟨["n=42".toList, "s=abc".toList], ReadEnd.eof⟩) '=' '#'
      false).getMap.find "s".toList = some "abc".toList ∧
    ((ConfigParser.construct (some ⟨["n=42".toList, "s=abc".toList], ReadEnd.eof⟩) '=' '#'
      false).getInt "s".toList false).1 = (false, -1) ∧
    ((ConfigParser.construct (some ⟨["n=42".toList, "s=abc".toList], ReadEnd.eof⟩) '=' '#'
      false).getInt "s".toList false).2.hasErrors = true :=
  have hn := (getInt_coercion
    (ConfigParser.construct (some ⟨["n=42".toList, "s=abc".toList], ReadEnd.eof⟩) '=' '#' false)
    "n".toList "42".toList (by decide)).1 42 false (by simp [numeralValue, decimalValue, isdigit, Nat.ofDigits_cons])
    (by decide) (by decide)
  have hs := (getInt_coercion
    (ConfigParser.construct (some ⟨["n=42".toList, "s=abc".toList], ReadEnd.eof⟩) '=' '#' false)
    "s".toList "abc".toList (by decide)).2.1
    (some ⟨["n=42".toList, "s=abc".toList], ReadEnd.eof⟩) '=' '#' false rfl
    (noNumeralStart_of_head 'a' "bc".toList (by decide) (by decide) (by decide))
  ⟨by decide, by simp [numeralValue, decimalValue, isdigit, Nat.ofDigits_cons], hn, by rw [hn]; decide, by decide,
    hs.1, hs.2.1⟩

/-- C11: typed getters on failure.  When the key is absent, or its stored string
fails to convert, `getInt(key, optional)` returns `(false, -1)` and `getUInt`,
`getLong`, `getFloat` and `getDouble` return `(false, 0)`; the error flag
afterwards is true when `optional` is false and unchanged when `optional` is
true, and the mapping is unchanged. -/
theorem typed_getters_on_failure (h : FloatHost) (cp : ConfigParser) (key : Str)
    (optional : Bool) :
    ((cp.getMap.find key = none ∨
        ∃ v e, cp.getMap.find key = some v ∧ stoi v = Except.error e) →
      (cp.getInt key optional).1 = (false, -1) ∧
      (cp.getInt key optional).2.hasErrors = (if optional then cp.hasErrors else true) ∧
      (cp.getInt key optional).2.getMap = cp.getMap) ∧
    ((cp.getMap.find key = none ∨
        ∃ v e, cp.getMap.find key = some v ∧ stoul v = Except.error e) →
      (cp.getUInt key optional).1 = (false, 0) ∧
      (cp.getUInt key optional).2.hasErrors = (if optional then cp.hasErrors else true) ∧
      (cp.getUInt key optional).2.getMap = cp.getMap) ∧
    ((cp.getMap.find key = none ∨
        ∃ v e, cp.getMap.find key = some v ∧ stol v = Except.error e) →
      (cp.getLong key optional).1 = (false, 0) ∧
      (cp.getLong key optional).2.hasErrors = (if optional then cp.hasErrors else true) ∧
      (cp.getLong key optional).2.getMap = cp.getMap) ∧
    ((cp.getMap.find key = none ∨
        ∃ v, cp.getMap.find key = some v ∧ h.stof v = none) →
      (ConfigParser.getFloat h cp key optional).1 = (false, h.zero32) ∧
      (ConfigParser.getFloat h cp key optional).2.hasErrors =
        (if optional then cp.hasErrors else true) ∧
      (ConfigParser.getFloat h cp key optional).2.getMap = cp.getMap) ∧
    ((cp.getMap.find key = none ∨
        ∃ v, cp.getMap.find key = some v ∧ h.stof v = none) →
      (ConfigParser.getDouble h cp key optional).1 = (false, h.zero64) ∧
      (ConfigParser.getDouble h cp key optional).2.hasErrors =
        (if optional then cp.hasErrors else true) ∧
      (ConfigParser.getDouble h cp key optional).2.getMap = cp.getMap) := by
  unfold ConfigParser.getMap
  refine ⟨?_, ?_, ?_, ?_, ?_⟩
  · rintro (hn | ⟨v, e, hv, he⟩)
    · simp only [getInt_eq, hn, flagUnlessOptional_hasErrors, flagUnlessOptional_values,
        and_self]
    · simp only [getInt_eq, hv, he, flagUnlessOptional_hasErrors, flagUnlessOptional_values,
        and_self]
  · rintro (hn | ⟨v, e, hv, he⟩)
    · simp only [getUInt_eq, hn, flagUnlessOptional_hasErrors, flagUnlessOptional_values,
        and_self]
    · simp only [getUInt_eq, hv, he, flagUnlessOptional_hasErrors, flagUnlessOptional_values,
        and_self]
  · rintro (hn | ⟨v, e, hv, he⟩)
    · simp only [getLong_eq, hn, flagUnlessOptional_hasErrors, flagUnlessOptional_values,
        and_self]
    · simp only [getLong_eq, hv, he, flagUnlessOptional_hasErrors, flagUnlessOptional_values,
        and_self]
  · rintro (hn | ⟨v, hv, he⟩)
    · simp only [getFloat_eq, hn, flagUnlessOptional_hasErrors, flagUnlessOptional_values,
        and_self]
    · simp only [getFloat_eq, hv, he, flagUnlessOptional_hasErrors, flagUnlessOptional_values,
        and_self]
  · rintro (hn | ⟨v, hv, he⟩)
    · simp only [getDouble_eq, hn, flagUnlessOptional_hasErrors, flagUnlessOptional_values,
        and_self]
    · simp only [getDouble_eq, hv, he, flagUnlessOptional_hasErrors, flagUnlessOptional_values,
        and_self]

/-- Witness for C11 on the store of the file `n=42`, `s=abc`: the required
`getInt("s")` fails to convert and sets the flag, the optional
`getUInt("missing")` leaves it clear. -/
theorem typed_getters_on_failure_witness :
    stoi "abc".toList = Except.error ConvError.invalid_argument ∧
    ((ConfigParser.construct (some ⟨["n=42".toList, "s=abc".toList], ReadEnd.eof⟩) '=' '#'
      false).getInt "s".toList false).1 = (false, -1) ∧
    ((ConfigParser.construct (some ⟨["n=42".toList, "s=abc".toList], ReadEnd.eof⟩) '=' '#'
      false).getInt "s".toList false).2.hasErrors = true ∧
    ((ConfigParser.construct (some ⟨["n=42".toList, "s=abc".toList], ReadEnd.eof⟩) '=' '#'
      false).getUInt "missing".toList true).1 = (false, 0) ∧
    ((ConfigParser.construct (some ⟨["n=42".toList, "s=abc".toList], ReadEnd.eof⟩) '=' '#'
      false).getUInt "missing".toList true).2.hasErrors = false :=
  have hs := (typed_getters_on_failure noFloatHost
    (ConfigParser.construct (some ⟨["n=42".toList, "s=abc".toList], ReadEnd.eof⟩) '=' '#' false)
    "s".toList false).1
    (Or.inr ⟨"abc".toList, ConvError.invalid_argument, by decide, by decide⟩)
  have hm := (typed_getters_on_failure noFloatHost
    (ConfigParser.construct (some ⟨["n=42".toList, "s=abc".toList], ReadEnd.eof⟩) '=' '#' false)
    "missing".toList true).2.1 (Or.inl (by decide))
  ⟨by decide, hs.1, hs.2.1, hm.1, hm.2.1⟩

/-- C12: partial numeric parses are accepted.  When the stored value is a
base-10 numeral of an integer `n` in the range of `int` followed by a suffix
that does not start with a digit, `getInt(key)` returns `(true, n)` and leaves
the object, so the error flag, as it was: the suffix is ignored. -/
theorem partial_numeric_parse_accepted (cp : ConfigParser) (key p suffix : Str) (n : Int)
    (optional : Bool) (hv : cp.getMap.find key = some (p ++ suffix))
    (hp : numeralValue p = some n)
    (hsuffix : ∀ x t, suffix = x :: t → isdigit x = false)
    (hlo : INT_MIN ≤ n) (hhi : n ≤ INT_MAX) :
    cp.getInt key optional = ((true, n), cp) ∧
    (cp.getInt key optional).2.hasErrors = cp.hasErrors := by
  unfold ConfigParser.getMap at hv
  have h : cp.getInt key optional = ((true, n), cp) := by
    rw [getInt_eq]
    simp only [hv, stoi_numeral_suffix p suffix n hp hsuffix hlo hhi]
  exact ⟨h, by rw [h]⟩

/-- Witness for C12 on the store of the file `a=42abc`, `b=3.14`,
`c=10 apples`: the three lookups give 42, 3 and 10. -/
theorem partial_numeric_parse_accepted_witness :
    (ConfigParser.construct (some ⟨["a=42abc".toList, "b=3.14".toList,
      "c=10 apples".toList], ReadEnd.eof⟩) '=' '#' false).getInt "a".toList false =
      ((true, 42), ConfigParser.construct (some ⟨["a=42abc".toList, "b=3.14".toList,
        "c=10 apples".toList], ReadEnd.eof⟩) '=' '#' false) ∧
    ((ConfigParser.construct (some ⟨["a=42abc".toList, "b=3.14".toList,
      "c=10 apples".toList], ReadEnd.eof⟩) '=' '#' false).getInt "b".toList false).1 =
      (true, 3) ∧
    ((ConfigParser.construct (some ⟨["a=42abc".toList, "b=3.14".toList,
      "c=10 apples".toList], ReadEnd.eof⟩) '=' '#' false).getInt "c".toList false).1 =
      (true, 10) ∧
    ((ConfigParser.construct (some ⟨["a=42abc".toList, "b=3.14".toList,
      "c=10 apples".toList], ReadEnd.eof⟩) '=' '#' false).getInt "c".toList false).2.hasErrors =
      false :=
  have h := partial_numeric_parse_accepted
    (ConfigParser.construct (some ⟨["a=42abc".toList, "b=3.14".toList,
      "c=10 apples".toList], ReadEnd.eof⟩) '=' '#' false)
  have ha := h "a".toList "42".toList "abc".toList 42 false (by decide)
    (by simp [numeralValue, decimalValue, isdigit, Nat.ofDigits_cons])
    (fun x t e => by cases e; decide) (by decide) (by decide)
  have hb := h "b".toList "3".toList ".14".toList 3 false (by decide)
    (by simp [numeralValue, decimalValue, isdigit, Nat.ofDigits_cons])
    (fun x t e => by cases e; decide) (by decide) (by decide)
  have hc := h "c".toList "10".toList " apples".toList 10 false (by decide)
    (by simp [numeralValue, decimalValue, isdigit, Nat.ofDigits_cons])
    (fun x t e => by cases e; decide) (by decide) (by decide)
  ⟨ha.1, by rw [hb.1], by rw [hc.1], hc.2.trans (by decide)⟩

/-- C13 (evaluation of the code): on the demonstration file, `getDouble("pi")`
returns the single-precision conversion of `3.14` widened to `double`, which is
13170115/4194304 = 3.1400001049041748046875, because line 203 calls `std::stof`;
the `double` nearest to 3.14, which `std::stod` gives, is
7070651414971679/2^51, within half a unit in the last place of 3.14 and closer
to it than the value returned.  The other lookups of the example are as stated:
`getInt("foo")` is `(true, 10)`, `getString("bar")` is `(true, "hello world")`,
and `hasErrors()` is false. -/
theorem getDouble_pi_single_precision :
    ConfigParser.getDouble ieeeHost demoStore "pi".toList false =
      ((true, (⟨false, 7070651651194880, -51⟩ : BinFloat)), demoStore) ∧
    ieeeStof "3.14".toList = some ⟨false, 13170115, -22⟩ ∧
    ieeeWiden ⟨false, 13170115, -22⟩ = ⟨false, 7070651651194880, -51⟩ ∧
    ieeeStod "3.14".toList = some ⟨false, 7070651414971679, -51⟩ ∧
    BinFloat.toRat ⟨false, 7070651651194880, -51⟩ = 13170115 / 4194304 ∧
    |BinFloat.toRat ⟨false, 7070651414971679, -51⟩ - 157 / 50| ≤ (2 : ℚ) ^ (-52 : ℤ) ∧
    |BinFloat.toRat ⟨false, 7070651414971679, -51⟩ - 157 / 50| <
      |BinFloat.toRat ⟨false, 7070651651194880, -51⟩ - 157 / 50| ∧
    demoStore.getInt "foo".toList false = ((true, 10), demoStore) ∧
    demoStore.getString "bar".toList false = ((true, "hello world".toList), demoStore) ∧
    demoStore.hasErrors = false ∧
    (∀ h : FloatHost, ConfigParser.getDouble h demoStore "pi".toList false =
      match h.stof "3.14".toList with
      | some x => ((true, h.toDouble x), demoStore)
      | none => ((false, h.zero64), { demoStore with errorFlag := true })) := by
  have hfind : demoStore.values.find "pi".toList = some "3.14".toList := by decide
  have hstof : ieeeStof "3.14".toList = some ⟨false, 13170115, -22⟩ := by decide
  refine ⟨?_, hstof, by decide, by decide, ?_, ?_, ?_, by decide, by decide, by decide, ?_⟩
  · rw [getDouble_eq]
    have hhost : ieeeHost.stof "3.14".toList = some ⟨false, 13170115, -22⟩ := hstof
    simp only [hfind, hhost]
    rfl
  · norm_num [BinFloat.toRat]
  · norm_num [BinFloat.toRat, abs_le]
  · norm_num [BinFloat.toRat, abs_lt, lt_abs]
  · intro h
    rw [getDouble_eq]
    simp only [hfind]
    rfl

/-- C14 (evaluation of the code): a read that fails with an I/O error ends the
loop through the `while` condition, which is `!file.fail()`, before the branch
of lines 29-38 can run; so for every file that opens and ends in an I/O error
the entries of the lines read before are kept but `hasErrors()` is false.  On
the file that delivers `a=1` and then fails, the map holds `a -> 1` and the flag
is clear. -/
theorem read_failure_leaves_flag_clear :
    (∀ line : Str,
      (fileGetline ⟨[], ReadEnd.ioError, false, false, false⟩ line).1.fail = true) ∧
    (∀ (ls : List Str) (d c : Char) (dbg : Bool),
      (ConfigParser.construct (some ⟨ls, ReadEnd.ioError⟩) d c dbg).hasErrors = false ∧
      ConfigParser.construct (some ⟨ls, ReadEnd.ioError⟩) d c dbg =
        ConfigParser.construct (some ⟨ls, ReadEnd.eof⟩) d c dbg) ∧
    (ConfigParser.construct (some ⟨["a=1".toList], ReadEnd.ioError⟩) '=' '#' false).hasErrors
      = false ∧
    (ConfigParser.construct (some ⟨["a=1".toList], ReadEnd.ioError⟩) '=' '#' false).getMap
      = [("a".toList, "1".toList)] := by
  refine ⟨fun line => rfl, ?_, by decide, by decide⟩
  intro ls d c dbg
  simp only [construct_some, ConfigParser.hasErrors, and_self]

/-- C15: the mapping is immutable after construction: any public call leaves
`getMap()` as it was, the object afterwards is either unchanged or differs only
in that the error flag has become true, and the same holds for the mapping after
any sequence of calls. -/
theorem getters_leave_map_unchanged (h : FloatHost) (cp : ConfigParser) :
    (∀ call : Call h, (Call.after h cp call).getMap = cp.getMap) ∧
    (∀ call : Call h, Call.after h cp call = cp ∨
      Call.after h cp call = { cp with errorFlag := true }) ∧
    (∀ calls : List (Call h), (runCalls h cp calls).getMap = cp.getMap) := by
  refine ⟨fun call => after_values h cp call, fun call => after_cases h cp call, ?_⟩
  intro calls
  unfold runCalls ConfigParser.getMap
  induction calls generalizing cp with
  | nil => rfl
  | cons call calls ih =>
    rw [List.foldl_cons, ih (Call.after h cp call), after_values]

/-- C16: `getDouble` is `getFloat` widened.  For every host, store, key and
optional flag, `getDouble(key, optional)` reports the same found-boolean and
leaves the same object, so the same error flag, as `getFloat(key, optional)`,
and when found its value is the `std::stof` result converted to `double`.  On an
IEEE 754 host and the stored value `3.14`, which single precision does not
represent exactly, the `double` returned is not the one that the
double-precision conversion of `3.14` gives, and denotes another number. -/
theorem getDouble_is_getFloat_widened (h : FloatHost) (cp : ConfigParser) (key : Str)
    (optional : Bool) :
    (ConfigParser.getDouble h cp key optional).1.1 =
      (ConfigParser.getFloat h cp key optional).1.1 ∧
    (ConfigParser.getDouble h cp key optional).2 =
      (ConfigParser.getFloat h cp key optional).2 ∧
    ((ConfigParser.getFloat h cp key optional).1.1 = true →
      (ConfigParser.getDouble h cp key optional).1.2 =
        h.toDouble (ConfigParser.getFloat h cp key optional).1.2) ∧
    (∀ v x, cp.getMap.find key = some v → h.stof v = some x →
      ConfigParser.getFloat h cp key optional = ((true, x), cp) ∧
      ConfigParser.getDouble h cp key optional = ((true, h.toDouble x), cp)) ∧
    (ConfigParser.getFloat ieeeHost demoStore "pi".toList false).1 =
      (true, (⟨false, 13170115, -22⟩ : BinFloat)) ∧
    BinFloat.toRat ⟨false, 13170115, -22⟩ ≠ 157 / 50 ∧
    (ConfigParser.getDouble ieeeHost demoStore "pi".toList false).1 =
      (true, ieeeWiden ⟨false, 13170115, -22⟩) ∧
    ieeeStod "3.14".toList = some ⟨false, 7070651414971679, -51⟩ ∧
    ieeeWiden ⟨false, 13170115, -22⟩ ≠ ⟨false, 7070651414971679, -51⟩ ∧
    BinFloat.toRat (ieeeWiden ⟨false, 13170115, -22⟩) ≠
      BinFloat.toRat ⟨false, 7070651414971679, -51⟩ := by
  have hfind : demoStore.values.find "pi".toList = some "3.14".toList := by decide
  have hstof : ieeeStof "3.14".toList = some ⟨false, 13170115, -22⟩ := by decide
  have hhost : ieeeHost.stof "3.14".toList = some ⟨false, 13170115, -22⟩ := hstof
  have hw : ieeeWiden ⟨false, 13170115, -22⟩ = ⟨false, 7070651651194880, -51⟩ := by decide
  refine ⟨?_, ?_, ?_, ?_, ?_, ?_, ?_, by decide, by decide, ?_⟩
  · rw [getDouble_eq, getFloat_eq]
    cases cp.values.find key with
    | none => rfl
    | some v => dsimp only; cases h.stof v <;> rfl
  · rw [getDouble_eq, getFloat_eq]
    cases cp.values.find key with
    | none => rfl
    | some v => dsimp only; cases h.stof v <;> rfl
  · rw [getDouble_eq, getFloat_eq]
    cases cp.values.find key with
    | none => intro hf; cases hf
    | some v =>
      dsimp only
      cases h.stof v with
      | none => intro hf; cases hf
      | some x => intro _; rfl
  · intro v x hv hx
    unfold ConfigParser.getMap at hv
    rw [getDouble_eq, getFloat_eq]
    simp only [hv, hx, and_self]
  · rw [getFloat_eq]
    simp only [hfind, hhost]
  · norm_num [BinFloat.toRat]
  · rw [getDouble_eq]
    simp only [hfind, hhost]
    rfl
  · rw [hw]
    norm_num [BinFloat.toRat]

/-- Witness for C16 on the demonstration file and an IEEE 754 host:
`getFloat("pi")` finds 13170115/2^22 and `getDouble("pi")` returns that number
as a `double`. -/
theorem getDouble_is_getFloat_widened_witness :
    (ConfigParser.getFloat ieeeHost demoStore "pi".toList false).1.1 = true ∧
    (ConfigParser.getDouble ieeeHost demoStore "pi".toList false).1.2 =
      ieeeHost.toDouble (ConfigParser.getFloat ieeeHost demoStore "pi".toList false).1.2 ∧
    ConfigParser.getDouble ieeeHost demoStore "pi".toList false =
      ((true, ieeeWiden ⟨false, 13170115, -22⟩), demoStore) :=
  have h := getDouble_is_getFloat_widened ieeeHost demoStore "pi".toList false
  ⟨by decide, h.2.2.1 (by decide),
    (h.2.2.2.1 "3.14".toList ⟨false, 13170115, -22⟩ (by decide)
      (show ieeeStof "3.14".toList = some ⟨false, 13170115, -22⟩ by decide)).2⟩

/-- C17: `getUInt` wraps instead of rejecting (64-bit `unsigned long`, 32-bit
`unsigned`).  When the stored value is a base-10 numeral of `n` with
`0 <= n < 2^64`, `getUInt(key)` returns `(true, n mod 2^32)` and leaves the
object, so the error flag, as it was; a stored `-1` is accepted as
`(true, 4294967295)`; whereas `getInt` on a numeral outside the range of `int`
returns `(false, -1)`, and sets the error flag when not optional. -/
theorem getUInt_wraps (cp : ConfigParser) (key v : Str) (optional : Bool)
    (hv : cp.getMap.find key = some v) :
    (∀ n : Int, numeralValue v = some n → 0 ≤ n → n < 2 ^ 64 →
      cp.getUInt key optional = ((true, n.toNat % 2 ^ 32), cp)) ∧
    (v = "-1".toList → cp.getUInt key optional = ((true, 4294967295), cp)) ∧
    (∀ n : Int, numeralValue v = some n → (n < INT_MIN ∨ INT_MAX < n) →
      (cp.getInt key optional).1 = (false, -1) ∧
      (cp.getInt key optional).2.hasErrors = (if optional then cp.hasErrors else true)) := by
  unfold ConfigParser.getMap at hv
  refine ⟨?_, ?_, ?_⟩
  · intro n hn h0 h1
    rw [getUInt_eq]
    simp only [hv, stoul_numeral v n hn h0 h1]
  · intro hm
    subst hm
    rw [getUInt_eq]
    simp only [hv, show stoul "-1".toList = Except.ok 18446744073709551615 by decide]
    rfl
  · intro n hn hout
    rw [getInt_eq]
    simp only [hv, stoi_numeral_out_of_range v n hn hout, flagUnlessOptional_hasErrors,
      and_self]

/-- Witness for C17 on the store of the file `a=4294967301`, `b=-1`:
`getUInt("a")` is `(true, 5)`, `getUInt("b")` is `(true, 4294967295)`, the flag
stays clear, and `getInt("a")` is `(false, -1)` with the flag set. -/
theorem getUInt_wraps_witness :
    (ConfigParser.construct (some ⟨["a=4294967301".toList, "b=-1".toList], ReadEnd.eof⟩)
      '=' '#' false).getUInt "a".toList false =
      ((true, 5), ConfigParser.construct
        (some ⟨["a=4294967301".toList, "b=-1".toList], ReadEnd.eof⟩) '=' '#' false) ∧
    (ConfigParser.construct (some ⟨["a=4294967301".toList, "b=-1".toList], ReadEnd.eof⟩)
      '=' '#' false).getUInt "b".toList false =
      ((true, 4294967295), ConfigParser.construct
        (some ⟨["a=4294967301".toList, "b=-1".toList], ReadEnd.eof⟩) '=' '#' false) ∧
    ((ConfigParser.construct (some ⟨["a=4294967301".toList, "b=-1".toList], ReadEnd.eof⟩)
      '=' '#' false).getInt "a".toList false).1 = (false, -1) ∧
    ((ConfigParser.construct (some ⟨["a=4294967301".toList, "b=-1".toList], ReadEnd.eof⟩)
      '=' '#' false).getInt "a".toList false).2.hasErrors = true :=
  have ha := getUInt_wraps
    (ConfigParser.construct (some ⟨["a=4294967301".toList, "b=-1".toList], ReadEnd.eof⟩)
      '=' '#' false) "a".toList "4294967301".toList false (by decide)
  have hb := getUInt_wraps
    (ConfigParser.construct (some ⟨["a=4294967301".toList, "b=-1".toList], ReadEnd.eof⟩)
      '=' '#' false) "b".toList "-1".toList false (by decide)
  have hnum : numeralValue "4294967301".toList = some 4294967301 := by
    simp [numeralValue, decimalValue, isdigit, Nat.ofDigits_cons]
  have hi := ha.2.2 4294967301 hnum (Or.inr (by decide))
  ⟨ha.1 4294967301 hnum (by decide) (by decide), hb.2.1 rfl, hi.1, hi.2⟩

/-- C18: for every file, delimiter `d` and comment character `c`, every key in
the mapping after construction is non-empty, neither starts nor ends with a
white-space character, and contains neither `d` nor `c`; and every stored value
contains no `c`. -/
theorem stored_keys_shape (file : Option FileData) (d c : Char) (dbg : Bool) (k v : Str) :
    ((k, v) ∈ (ConfigParser.construct file d c dbg).getMap →
      k ≠ [] ∧ startsWithSpace k = false ∧ endsWithSpace k = false ∧ d ∉ k ∧ c ∉ k ∧
      c ∉ v) ∧
    ((ConfigParser.construct file d c dbg).getMap.find k = some v →
      k ≠ [] ∧ startsWithSpace k = false ∧ endsWithSpace k = false ∧ d ∉ k ∧ c ∉ k ∧
      c ∉ v) := by
  have hmem : (k, v) ∈ (ConfigParser.construct file d c dbg).getMap →
      k ≠ [] ∧ startsWithSpace k = false ∧ endsWithSpace k = false ∧ d ∉ k ∧ c ∉ k ∧
      c ∉ v := by
    intro h
    obtain ⟨l, hl⟩ := construct_mem file d c dbg k v h
    exact referenceParse_key d c l k v hl
  exact ⟨hmem, fun h => hmem (find_mem _ k v h)⟩

/-- Witness for C18 on the file `  key one = v = w # note`: the stored pair is
(`key one`, `v = w`). -/
theorem stored_keys_shape_witness :
    (ConfigParser.construct (some ⟨["  key one = v = w # note".toList], ReadEnd.eof⟩) '=' '#'
      false).getMap = [("key one".toList, "v = w".toList)] ∧
    ("key one".toList ≠ [] ∧ startsWithSpace "key one".toList = false ∧
      endsWithSpace "key one".toList = false ∧ '=' ∉ "key one".toList ∧
      '#' ∉ "key one".toList ∧ '#' ∉ "v = w".toList) :=
  ⟨by decide, (stored_keys_shape (some ⟨["  key one = v = w # note".toList], ReadEnd.eof⟩)
    '=' '#' false "key one".toList "v = w".toList).1 (by decide)⟩

/-- C19: construction sets the error flag exactly when the file cannot be
opened: `hasErrors()` right after construction is true if and only if the open
failed, and then the mapping is empty; when the file opens, whatever its
lines and however its reading ends, the flag is clear. -/
theorem construct_flag_iff_open_failed (file : Option FileData) (d c : Char) (dbg : Bool) :
    (ConfigParser.construct file d c dbg).hasErrors = file.isNone ∧
    ((ConfigParser.construct file d c dbg).hasErrors = true ↔ file = none) ∧
    (ConfigParser.construct none d c dbg).getMap = [] ∧
    (∀ (ls : List Str) (e : ReadEnd),
      (ConfigParser.construct (some ⟨ls, e⟩) d c dbg).hasErrors = false) := by
  refine ⟨?_, ?_, rfl, fun ls e => by rw [construct_some]; rfl⟩
  · cases file with
    | none => rfl
    | some f => obtain ⟨ls, e⟩ := f; rw [construct_some]; rfl
  · cases file with
    | none => simp [ConfigParser.construct, ConfigParser.hasErrors]
    | some f => obtain ⟨ls, e⟩ := f; rw [construct_some]; simp [ConfigParser.hasErrors]

/-- Witness for C19: a file of malformed lines, an empty value and a duplicate
key opens with the flag clear; a file that does not open has the flag set and no
entries. -/
theorem construct_flag_iff_open_failed_witness :
    (ConfigParser.construct (some ⟨["nodelim".toList, "=v".toList, "k=".toList,
      "k=1".toList, "k=2".toList], ReadEnd.eof⟩) '=' '#' false).hasErrors = false ∧
    (ConfigParser.construct none '=' '#' false).hasErrors = true ∧
    (ConfigParser.construct none '=' '#' false).getMap = [] :=
  ⟨(construct_flag_iff_open_failed (some ⟨["nodelim".toList, "=v".toList, "k=".toList,
      "k=1".toList, "k=2".toList], ReadEnd.eof⟩) '=' '#' false).1,
    (construct_flag_iff_open_failed none '=' '#' false).2.1.2 rfl,
    (construct_flag_iff_open_failed none '=' '#' false).2.2.1⟩

/-- C20, as amended: for every string `s` that is empty or has a character that
is not white space, `rtrim(s)` is the longest prefix of `s` that does not end in
a white-space character (what follows it in `s` is white space only), so the
result does not end in white space; a string that consists only of white space
is returned unchanged; the strings that the class passes to `rtrim`, the key
segment of a left-trimmed line and the result of `ltrim`, are of the first kind;
and `trim(s) = rtrim(ltrim(s))` has neither leading nor trailing white space. -/
theorem rtrim_longest_prefix_unless_blank (s : Str) :
    (rtrim s whitespace = if s.all isspace then s else stripTrailing s) ∧
    ((s = [] ∨ s.all isspace = false) →
      rtrim s whitespace = stripTrailing s ∧
      (∃ r : Str, rtrim s whitespace ++ r = s ∧ r.all isspace = true) ∧
      endsWithSpace (rtrim s whitespace) = false) ∧
    (s.all isspace = true → rtrim s whitespace = s) ∧
    (∀ d : Char, rtrim (keySegment (stripLeading s) d) whitespace =
        stripTrailing (keySegment (stripLeading s) d) ∧
      endsWithSpace (rtrim (keySegment (stripLeading s) d) whitespace) = false) ∧
    (rtrim (ltrim s whitespace) whitespace = stripTrailing (ltrim s whitespace) ∧
      endsWithSpace (rtrim (ltrim s whitespace) whitespace) = false) ∧
    trim s whitespace = rtrim (ltrim s whitespace) whitespace ∧
    trim s whitespace = stripTrailing (stripLeading s) ∧
    startsWithSpace (trim s whitespace) = false ∧
    endsWithSpace (trim s whitespace) = false := by
  have hgen : rtrim s whitespace = if s.all isspace then s else stripTrailing s := by
    rw [rtrim_eq, contains_whitespace_fun]
    rfl
  have hkey : ∀ d : Char, rtrim (keySegment (stripLeading s) d) whitespace =
      stripTrailing (keySegment (stripLeading s) d) :=
    fun d => rtrim_eq_stripTrailing _ (keySegment_stripLeading_blank s d)
  have hl : rtrim (ltrim s whitespace) whitespace = stripTrailing (ltrim s whitespace) :=
    rtrim_eq_stripTrailing _ (ltrim_blank s)
  refine ⟨hgen, ?_, ?_, ?_, ?_, rfl, trim_eq s whitespace, ?_, ?_⟩
  · intro h
    have he : rtrim s whitespace = stripTrailing s := by
      rcases h with h | h
      · subst h; rfl
      · rw [hgen, h]; rfl
    rw [he]
    exact ⟨rfl, stripTrailing_rest s, stripTrailing_not_endsWithSpace s⟩
  · intro h
    rw [hgen, if_pos h]
  · intro d
    rw [hkey d]
    exact ⟨rfl, stripTrailing_not_endsWithSpace _⟩
  · rw [hl]
    exact ⟨rfl, stripTrailing_not_endsWithSpace _⟩
  · rw [trim_eq]
    by_cases hne : stripTrailing (stripLeading s) = []
    · rw [hne]; rfl
    · unfold startsWithSpace
      cases hx : (stripTrailing (stripLeading s)).head? with
      | none => rfl
      | some ch => exact (stripped_ends s hne).1 ch hx
  · rw [trim_eq]
    exact stripTrailing_not_endsWithSpace _

/-- Witness for C20 as amended: `rtrim("key \t ")` is `key`, `rtrim("")` is the
empty string, and `rtrim("  ")` is `"  "`. -/
theorem rtrim_longest_prefix_unless_blank_witness :
    "key \t ".toList.all isspace = false ∧
    rtrim "key \t ".toList whitespace = stripTrailing "key \t ".toList ∧
    stripTrailing "key \t ".toList = "key".toList ∧
    endsWithSpace (rtrim "key \t ".toList whitespace) = false ∧
    rtrim [] whitespace = stripTrailing [] ∧
    "  ".toList.all isspace = true ∧
    rtrim "  ".toList whitespace = "  ".toList :=
  have h1 := (rtrim_longest_prefix_unless_blank "key \t ".toList).2.1 (Or.inr (by decide))
  have h2 := (rtrim_longest_prefix_unless_blank []).2.1 (Or.inl rfl)
  have h3 := (rtrim_longest_prefix_unless_blank "  ".toList).2.2.1 (by decide)
  ⟨by decide, h1.1, by decide, h1.2.2, h2.1, by decide, h3⟩

/-- Counterexample to C20 as stated: `rtrim(" ")` is `" "`, not the empty
string, which is the longest prefix of `" "` that does not end in white space;
the result ends in white space; so `rtrim` is not that longest prefix for every
string. -/
theorem rtrim_blank_counterexample :
    rtrim " ".toList whitespace = " ".toList ∧
    stripTrailing " ".toList = [] ∧
    rtrim " ".toList whitespace ≠ stripTrailing " ".toList ∧
    endsWithSpace (rtrim " ".toList whitespace) = true ∧
    ¬ (∀ s : Str, rtrim s whitespace = stripTrailing s ∧
      endsWithSpace (rtrim s whitespace) = false) :=
  ⟨by decide, by decide, by decide, by decide,
    fun h => absurd (h " ".toList).2 (by decide)⟩

end SimpleConfigParser
